import Mathlib

/-!
Shallow embedding of the BVH-accelerated ray tracer
(`src/2026/03/03-01-BVH-Accelerated-Ray-Tracer/main.cpp`).

Scalar doubles are modelled as elements of a linear ordered field `α`
(instantiated at `ℚ` for executable witnesses and at `ℝ` where the source
takes square roots).  Division by zero follows Lean's `x / 0 = 0`
convention; all claims that depend on a reciprocal carry the corresponding
nonzero-direction hypothesis.
-/

namespace RayTracer

/-- `struct Vec3` (main.cpp:31). -/
structure Vec3 (α : Type) where
  x : α
  y : α
  z : α
deriving DecidableEq, Repr

namespace Vec3

variable {α : Type} [LinearOrderedField α]

def add (a b : Vec3 α) : Vec3 α := ⟨a.x + b.x, a.y + b.y, a.z + b.z⟩

def sub (a b : Vec3 α) : Vec3 α := ⟨a.x - b.x, a.y - b.y, a.z - b.z⟩

def smul (t : α) (a : Vec3 α) : Vec3 α := ⟨a.x * t, a.y * t, a.z * t⟩

def hmul (a b : Vec3 α) : Vec3 α := ⟨a.x * b.x, a.y * b.y, a.z * b.z⟩

def neg (a : Vec3 α) : Vec3 α := ⟨-a.x, -a.y, -a.z⟩

def dot (a b : Vec3 α) : α := a.x * b.x + a.y * b.y + a.z * b.z

/-- `operator[]` (main.cpp:50): component access by axis number. -/
def axisGet (a : Vec3 α) (i : ℕ) : α :=
  match i with
  | 0 => a.x
  | 1 => a.y
  | _ => a.z

end Vec3

/-- `struct Ray` (main.cpp:60). -/
structure Ray (α : Type) where
  origin : Vec3 α
  direction : Vec3 α
deriving DecidableEq, Repr

/-- `Ray::at` (main.cpp:62). -/
def Ray.at {α : Type} [LinearOrderedField α] (r : Ray α) (t : α) : Vec3 α :=
  r.origin.add (r.direction.smul t)

/-- `struct AABB` (main.cpp:69). -/
structure AABB (α : Type) where
  min_pt : Vec3 α
  max_pt : Vec3 α
deriving DecidableEq, Repr

namespace AABB

variable {α : Type} [LinearOrderedField α]

/-- The default constructor `AABB()` (main.cpp:72): the merge seed, with
`min_pt = (1e30,1e30,1e30)` and `max_pt = (-1e30,-1e30,-1e30)`. -/
def emptyBox : AABB α :=
  ⟨⟨(10:α)^30, (10:α)^30, (10:α)^30⟩, ⟨-(10:α)^30, -(10:α)^30, -(10:α)^30⟩⟩

/-- `AABB::merge` (main.cpp:76-84): componentwise min of mins, max of maxes. -/
def merge (a b : AABB α) : AABB α :=
  ⟨⟨min a.min_pt.x b.min_pt.x, min a.min_pt.y b.min_pt.y, min a.min_pt.z b.min_pt.z⟩,
   ⟨max a.max_pt.x b.max_pt.x, max a.max_pt.y b.max_pt.y, max a.max_pt.z b.max_pt.z⟩⟩

/-- `AABB::surface_area` (main.cpp:87-90). -/
def surface_area (a : AABB α) : α :=
  let d := a.max_pt.sub a.min_pt
  2 * (d.x * d.y + d.y * d.z + d.z * d.x)

/-- `AABB::centroid` (main.cpp:93-95). -/
def centroid (a : AABB α) : Vec3 α :=
  (a.min_pt.add a.max_pt).smul (1/2)

/-- The narrowing step of one iteration of the slab loop in
`AABB::intersect` (main.cpp:100-105): compute the entry/exit parameters of
axis `i` from the reciprocal of the direction component, swap on a negative
reciprocal, and shrink the running `[t_min, t_max]`. -/
def slabNarrow (a : AABB α) (ray : Ray α) (i : ℕ) (s : α × α) : α × α :=
  let inv_d := 1 / ray.direction.axisGet i
  let t0 := (a.min_pt.axisGet i - ray.origin.axisGet i) * inv_d
  let t1 := (a.max_pt.axisGet i - ray.origin.axisGet i) * inv_d
  let p := if inv_d < 0 then (t1, t0) else (t0, t1)
  (max s.1 p.1, min s.2 p.2)

/-- One full iteration of the slab loop in `AABB::intersect`
(main.cpp:99-107), returning `none` for the early `return false` when the
narrowed interval satisfies `t_max <= t_min`. -/
def slabAxis (a : AABB α) (ray : Ray α) (i : ℕ) (s : α × α) : Option (α × α) :=
  let s' := slabNarrow a ray i s
  if s'.2 ≤ s'.1 then none else some s'

/-- `AABB::intersect` (main.cpp:98-109): the slab method over the three
axes with the in-loop early `return false`. -/
def intersect (a : AABB α) (ray : Ray α) (t_min t_max : α) : Bool :=
  match slabAxis a ray 0 (t_min, t_max) with
  | none => false
  | some s0 =>
    match slabAxis a ray 1 s0 with
    | none => false
    | some s1 =>
      match slabAxis a ray 2 s1 with
      | none => false
      | some _ => true

end AABB

/-- The `Material::Type` enum (main.cpp:117). -/
inductive MatType where
  | DIFFUSE
  | METAL
  | GLASS
deriving DecidableEq, Repr

/-- `struct Material` (main.cpp:116-125). -/
structure Material (α : Type) where
  type : MatType
  albedo : Vec3 α
  roughness : α
  ior : α
deriving DecidableEq, Repr

namespace Material

variable {α : Type} [LinearOrderedField α]

/-- `Material::diffuse` (main.cpp:122). -/
def diffuse (color : Vec3 α) : Material α := ⟨.DIFFUSE, color, 0, 0⟩

/-- `Material::metal` (main.cpp:123). -/
def metal (color : Vec3 α) (rough : α) : Material α := ⟨.METAL, color, rough, 0⟩

/-- `Material::glass` (main.cpp:124). -/
def glass (ior : α) : Material α := ⟨.GLASS, ⟨1, 1, 1⟩, 0, ior⟩

end Material

/-- `struct HitRecord` (main.cpp:131-142). -/
structure HitRecord (α : Type) where
  point : Vec3 α
  normal : Vec3 α
  t : α
  front_face : Bool
  mat : Material α
deriving DecidableEq, Repr

/-- `struct Sphere` (main.cpp:148). -/
structure Sphere (α : Type) where
  center : Vec3 α
  radius : α
  mat : Material α
deriving DecidableEq, Repr

/-- `Sphere::bounding_box` (main.cpp:153-156). -/
def Sphere.boundingBox {α : Type} [LinearOrderedField α] (s : Sphere α) : AABB α :=
  let r_vec : Vec3 α := ⟨s.radius, s.radius, s.radius⟩
  ⟨s.center.sub r_vec, s.center.add r_vec⟩

/-- Placeholder sphere used to totalize the C++ vector indexing
`spheres[idx]`; never reached on the in-range indices produced by the
builder. -/
def defSphere {α : Type} [LinearOrderedField α] : Sphere α :=
  ⟨⟨0, 0, 0⟩, 0, Material.diffuse ⟨0, 0, 0⟩⟩

/-- `spheres[i]` on the scene's sphere vector. -/
def sphGet {α : Type} [LinearOrderedField α] (sph : List (Sphere α)) (i : ℕ) : Sphere α :=
  sph.getD i defSphere

/-- `struct BVHNode` (main.cpp:187-194); child and sphere indices are C++
`int`s with `-1` as the "absent" sentinel set by the default constructor. -/
structure BVHNode (α : Type) where
  bbox : AABB α
  left : ℤ
  right : ℤ
  sphere_idx : ℤ
  is_leaf : Bool
deriving DecidableEq, Repr

/-- `BVHNode()` (main.cpp:193): the placeholder pushed by
`nodes.emplace_back()`; the default `AABB` constructor gives the merge
seed box. -/
def defNode {α : Type} [LinearOrderedField α] : BVHNode α :=
  ⟨AABB.emptyBox, -1, -1, -1, false⟩

/-- `nodes[i]` on the node arena. -/
def nodeGet {α : Type} [LinearOrderedField α] (nodes : List (BVHNode α)) (i : ℕ) : BVHNode α :=
  nodes.getD i defNode

section Build

variable {α : Type} [LinearOrderedField α] [FloorRing α]

/-- One step of the centroid bounding-box accumulation in `BVH::build`
(main.cpp:234-239): grow the running box to include the point `c`. -/
def growPoint (bb : AABB α) (c : Vec3 α) : AABB α :=
  ⟨⟨min bb.min_pt.x c.x, min bb.min_pt.y c.y, min bb.min_pt.z c.z⟩,
   ⟨max bb.max_pt.x c.x, max bb.max_pt.y c.y, max bb.max_pt.z c.z⟩⟩

/-- The centroid bounding box of `BVH::build` (main.cpp:231-240): fold the
sphere centers of the range into the default (seed) box. -/
def centroidBox (sph : List (Sphere α)) (seg : List ℕ) : AABB α :=
  seg.foldl (fun bb i => growPoint bb (sphGet sph i).center) AABB.emptyBox

/-- The longest-axis selection of `BVH::build` (main.cpp:243-246). -/
def chooseAxis (cb : AABB α) : ℕ :=
  let extent := cb.max_pt.sub cb.min_pt
  let axis := if extent.x < extent.y then 1 else 0
  if extent.axisGet axis < extent.z then 2 else axis

/-- The centroid coordinate `spheres[idx].center[axis]` used as the sort
and partition key in `BVH::sah_split`. -/
def centerKey (sph : List (Sphere α)) (axis : ℕ) (idx : ℕ) : α :=
  (sphGet sph idx).center.axisGet axis

/-- The bucket index of `BVH::sah_split` (main.cpp:289-290).  The C++
`(int)` cast truncates toward zero, which agrees with `Int.floor` on the
nonnegative values produced by in-range centroids; the final clamp is the
source's `if (b >= NUM_BUCKETS) b = NUM_BUCKETS - 1`. -/
def bucketIndex (cb : AABB α) (axis : ℕ) (extent : α) (c : α) : ℕ :=
  let b := (Int.floor (12 * (c - cb.min_pt.axisGet axis) / extent)).toNat
  if 12 ≤ b then 11 else b

/-- The bucket array of `BVH::sah_split` (main.cpp:276-293): 12 pairs of
(merged box, primitive count), filled by one pass over the range. -/
def fillBuckets (sph : List (Sphere α)) (seg : List ℕ) (cb : AABB α) (axis : ℕ)
    (extent : α) : List (AABB α × ℕ) :=
  seg.foldl
    (fun bk i =>
      let b := bucketIndex cb axis extent (centerKey sph axis i)
      let cur := bk.getD b (AABB.emptyBox, 0)
      bk.set b (AABB.merge cur.1 (sphGet sph i).boundingBox, cur.2 + 1))
    (List.replicate 12 (AABB.emptyBox, 0))

/-- The SAH cost of candidate split `i` in `BVH::sah_split`
(main.cpp:296-310): merge buckets `0..i` against buckets `i+1..11`. -/
def sahCost (bk : List (AABB α × ℕ)) (i : ℕ) : α :=
  let b0 := ((bk.take (i+1)).map Prod.fst).foldl AABB.merge AABB.emptyBox
  let cnt0 := ((bk.take (i+1)).map Prod.snd).sum
  let b1 := ((bk.drop (i+1)).map Prod.fst).foldl AABB.merge AABB.emptyBox
  let cnt1 := ((bk.drop (i+1)).map Prod.snd).sum
  (0.125 : α) + ((cnt0 : α) * b0.surface_area + (cnt1 : α) * b1.surface_area) /
    (AABB.merge b0 b1).surface_area

/-- The minimum-cost bucket search of `BVH::sah_split` (main.cpp:313-320):
a strict-less fold keeps the first bucket achieving the minimum cost.
Starting the fold at `i = 0` with the initial accumulator `(0, cost 0)` is
the source's loop from `i = 1`, since the `i = 0` step never updates. -/
def minCostBucket (bk : List (AABB α × ℕ)) : ℕ :=
  ((List.range 11).foldl
    (fun acc i => if sahCost bk i < acc.2 then (i, sahCost bk i) else acc)
    (0, sahCost bk 0)).1

/-- The partition threshold of `BVH::sah_split` (main.cpp:323): the right
edge of the minimum-cost bucket. -/
def splitVal (sph : List (Sphere α)) (seg : List ℕ) (axis : ℕ) (cb : AABB α) : α :=
  let extent := cb.max_pt.axisGet axis - cb.min_pt.axisGet axis
  cb.min_pt.axisGet axis +
    ((minCostBucket (fillBuckets sph seg cb axis extent) : α) + 1) * extent / 12

/-- `BVH::sah_split` (main.cpp:263-332) on the sub-range `seg` of the index
vector: returns the re-ordered range together with the split offset
(`mid - start` in the source's indexing).  `std::sort` is modelled by a
sorted permutation and `std::partition` by the stable filter split; the
claims do not depend on the unspecified order of C++ equal/partitioned
elements. -/
def sahSplit (sph : List (Sphere α)) (seg : List ℕ) (axis : ℕ) (cb : AABB α) :
    List ℕ × ℕ :=
  let count := seg.length
  if count ≤ 4 then
    (seg.insertionSort (fun a b => centerKey sph axis a ≤ centerKey sph axis b),
     count / 2)
  else
    let extent := cb.max_pt.axisGet axis - cb.min_pt.axisGet axis
    if extent < 1 / 10 ^ 10 then
      (seg, count / 2)
    else
      let pl := seg.filter (fun idx => centerKey sph axis idx < splitVal sph seg axis cb)
      let pr := seg.filter (fun idx => ¬ (centerKey sph axis idx < splitVal sph seg axis cb))
      if pl.length = 0 ∨ pl.length = count then (pl ++ pr, count / 2)
      else (pl ++ pr, pl.length)

theorem filter_append_length {β : Type} (l : List β) (p : β → Prop) [DecidablePred p] :
    ((l.filter fun a => decide (p a)) ++ (l.filter fun a => decide ¬ p a)).length = l.length := by
  induction l with
  | nil => rfl
  | cons a l ih =>
    by_cases h : p a <;> (simp_all [List.filter_cons]; try omega)

theorem sahSplit_fst_length (sph : List (Sphere α)) (seg : List ℕ) (axis : ℕ)
    (cb : AABB α) : (sahSplit sph seg axis cb).1.length = seg.length := by
  unfold sahSplit
  dsimp only
  split
  · exact (List.perm_insertionSort
      (fun a b => centerKey sph axis a ≤ centerKey sph axis b) seg).length_eq
  · split
    · rfl
    · split <;> exact filter_append_length _ _

theorem sahSplit_snd_pos (sph : List (Sphere α)) (seg : List ℕ) (axis : ℕ)
    (cb : AABB α) (h2 : 2 ≤ seg.length) : 0 < (sahSplit sph seg axis cb).2 := by
  unfold sahSplit
  dsimp only
  split
  · exact Nat.div_pos h2 (by norm_num)
  · split
    · exact Nat.div_pos h2 (by norm_num)
    · split
      · exact Nat.div_pos h2 (by norm_num)
      · rename_i hne
        exact Nat.pos_of_ne_zero (fun h0 => hne (Or.inl h0))

theorem sahSplit_snd_lt (sph : List (Sphere α)) (seg : List ℕ) (axis : ℕ)
    (cb : AABB α) (h2 : 2 ≤ seg.length) :
    (sahSplit sph seg axis cb).2 < seg.length := by
  have hhalf : seg.length / 2 < seg.length := Nat.div_lt_self (by omega) (by norm_num)
  unfold sahSplit
  dsimp only
  split
  · exact hhalf
  · split
    · exact hhalf
    · split
      · exact hhalf
      · rename_i hne
        exact lt_of_le_of_ne (List.length_filter_le _ _) (fun h => hne (Or.inr h))

/-- `BVH::build` (main.cpp:216-260) on a sub-range of the index vector,
threading the node arena explicitly: push a placeholder node, build both
halves produced by `sah_split`, then overwrite the placeholder with the
internal node whose box merges the two children's boxes.  Returns the
grown arena and the index of the node emitted for this range.  The empty
range never occurs (the constructor passes a nonempty range and splits are
strict); it is totalized with a placeholder leaf. -/
def build (sph : List (Sphere α)) : List ℕ → List (BVHNode α) → List (BVHNode α) × ℕ
  | [], arena => (arena ++ [defNode], arena.length)
  | [i], arena =>
    (arena ++ [{ bbox := (sphGet sph i).boundingBox, left := -1, right := -1,
                 sphere_idx := (i : ℤ), is_leaf := true }], arena.length)
  | i :: j :: rest, arena =>
    let seg := i :: j :: rest
    let node_idx := arena.length
    let cb := centroidBox sph seg
    let axis := chooseAxis cb
    let sp := sahSplit sph seg axis cb
    let arena1 := arena ++ [defNode]
    let resL := build sph (sp.1.take sp.2) arena1
    let resR := build sph (sp.1.drop sp.2) resL.1
    let node : BVHNode α :=
      { bbox := AABB.merge (nodeGet resR.1 resL.2).bbox (nodeGet resR.1 resR.2).bbox,
        left := (resL.2 : ℤ), right := (resR.2 : ℤ), sphere_idx := -1, is_leaf := false }
    (resR.1.set node_idx node, node_idx)
termination_by seg _ => seg.length
decreasing_by
  · have hlen := sahSplit_fst_length sph (i :: j :: rest)
      (chooseAxis (centroidBox sph (i :: j :: rest)))
      (centroidBox sph (i :: j :: rest))
    have hlt := sahSplit_snd_lt sph (i :: j :: rest)
      (chooseAxis (centroidBox sph (i :: j :: rest)))
      (centroidBox sph (i :: j :: rest)) (by simp)
    simp only [List.length_take]
    simp only [List.length_cons] at hlen hlt ⊢
    omega
  · have hlen := sahSplit_fst_length sph (i :: j :: rest)
      (chooseAxis (centroidBox sph (i :: j :: rest)))
      (centroidBox sph (i :: j :: rest))
    have hpos := sahSplit_snd_pos sph (i :: j :: rest)
      (chooseAxis (centroidBox sph (i :: j :: rest)))
      (centroidBox sph (i :: j :: rest)) (by simp)
    simp only [List.length_drop]
    simp only [List.length_cons] at hlen hpos ⊢
    omega

/-- The `BVH` constructor (main.cpp:206-213): an empty sphere list yields
an empty arena; otherwise build from the identity index vector.  The root
is always node `0`. -/
def bvhBuild (sph : List (Sphere α)) : List (BVHNode α) :=
  if sph.isEmpty then []
  else (build sph (List.range sph.length) []).1

end Build

/-- Spec-side slab method (spec §4.1 `hit`): for each axis compute
entry/exit distances from the reciprocal direction, swap on a negative
component, and shrink `[t_min, t_max]` — on all three axes unconditionally
— then report a hit exactly when the narrowed interval is nonempty
(`t_max <= t_min` means empty). -/
def slabSpecHit {α : Type} [LinearOrderedField α] (a : AABB α) (ray : Ray α)
    (t_min t_max : α) : Bool :=
  let s := AABB.slabNarrow a ray 2 (AABB.slabNarrow a ray 1
    (AABB.slabNarrow a ray 0 (t_min, t_max)))
  decide (s.1 < s.2)


/-! Real-valued part of the tracer: everything that takes a square root
(`std::sqrt`) lives over `ℝ` with `Real.sqrt`. -/

noncomputable section

/-- `Vec3::operator/` by a scalar (main.cpp:40). -/
def Vec3.sdiv {α : Type} [LinearOrderedField α] (v : Vec3 α) (t : α) : Vec3 α :=
  ⟨v.x / t, v.y / t, v.z / t⟩

/-- `Vec3::length` (main.cpp:47). -/
def Vec3.len (v : Vec3 ℝ) : ℝ :=
  Real.sqrt (v.x * v.x + v.y * v.y + v.z * v.z)

/-- `Vec3::normalize` (main.cpp:48). -/
def Vec3.normalize (v : Vec3 ℝ) : Vec3 ℝ :=
  v.sdiv v.len

/-- `reflect` (main.cpp:388-390). -/
def reflect (v n : Vec3 ℝ) : Vec3 ℝ :=
  v.sub (n.smul (2 * v.dot n))

/-- `refract` (main.cpp:392-397). -/
def refract (uv n : Vec3 ℝ) (etai_over_etat : ℝ) : Vec3 ℝ :=
  let cos_theta := min ((uv.neg).dot n) 1
  let r_out_perp := (uv.add (n.smul cos_theta)).smul etai_over_etat
  let r_out_parallel := n.smul (-Real.sqrt |1 - r_out_perp.dot r_out_perp|)
  r_out_perp.add r_out_parallel

/-- `schlick` (main.cpp:399-403). -/
def schlick (cosine ior : ℝ) : ℝ :=
  let r0 := (1 - ior) / (1 + ior)
  let r0sq := r0 * r0
  r0sq + (1 - r0sq) * (1 - cosine) ^ 5

/-- `Sphere::intersect` (main.cpp:158-180): solve the quadratic, prefer
the smaller root, accept a root only inside `[t_min, t_max]`, and fill the
hit record via `set_face_normal` (main.cpp:138-141). -/
def Sphere.hit (s : Sphere ℝ) (ray : Ray ℝ) (t_min t_max : ℝ) :
    Option (HitRecord ℝ) :=
  let oc := ray.origin.sub s.center
  let a := ray.direction.dot ray.direction
  let half_b := oc.dot ray.direction
  let c := oc.dot oc - s.radius * s.radius
  let disc := half_b * half_b - a * c
  if disc < 0 then none
  else
    let sqrt_d := Real.sqrt disc
    let tA := (-half_b - sqrt_d) / a
    let tB := (-half_b + sqrt_d) / a
    let t? : Option ℝ :=
      if tA < t_min ∨ tA > t_max then
        if tB < t_min ∨ tB > t_max then none else some tB
      else some tA
    t?.map (fun t =>
      let point := ray.at t
      let outward := (point.sub s.center).sdiv s.radius
      let front_face := ray.direction.dot outward < 0
      { point := point
        normal := if front_face then outward else outward.neg
        t := t
        front_face := front_face
        mat := s.mat })

/-- The loop body of `Scene::intersect_brute` (main.cpp:418-430): test
each sphere against the shrinking `[t_min, closest]` window, keeping the
latest accepted record. -/
def bruteLoop (ray : Ray ℝ) (t_min : ℝ) :
    List (Sphere ℝ) → ℝ → Option (HitRecord ℝ) → Option (HitRecord ℝ)
  | [], _, acc => acc
  | s :: rest, closest, acc =>
    match s.hit ray t_min closest with
    | none => bruteLoop ray t_min rest closest acc
    | some tmp => bruteLoop ray t_min rest tmp.t (some tmp)

/-- `Scene::intersect_brute` (main.cpp:418-430). -/
def intersectBrute (sph : List (Sphere ℝ)) (ray : Ray ℝ) (t_min t_max : ℝ) :
    Option (HitRecord ℝ) :=
  bruteLoop ray t_min sph t_max none

/-- `BVH::intersect_node` (main.cpp:340-366), with the recursion depth
bounded by explicit fuel (the source recursion terminates because child
indices strictly exceed the parent index in every arena the builder
produces; `bvhIntersect` passes fuel `nodes.length`, which is shown
sufficient for such arenas).  The second result is the number of node
visits added to the `tests` counter. -/
def intersectNode (nodes : List (BVHNode ℝ)) (sph : List (Sphere ℝ)) (ray : Ray ℝ) :
    ℕ → ℕ → ℝ → ℝ → Option (HitRecord ℝ) × ℕ
  | 0, _, _, _ => (none, 0)
  | fuel + 1, idx, t_min, t_max =>
    let node := nodeGet nodes idx
    if ¬ node.bbox.intersect ray t_min t_max then (none, 1)
    else if node.is_leaf then
      ((sphGet sph node.sphere_idx.toNat).hit ray t_min t_max, 1)
    else
      let resL :=
        if 0 ≤ node.left then intersectNode nodes sph ray fuel node.left.toNat t_min t_max
        else (none, 0)
      let t_closest := match resL.1 with
        | some r => r.t
        | none => t_max
      let resR :=
        if 0 ≤ node.right then intersectNode nodes sph ray fuel node.right.toNat t_min t_closest
        else (none, 0)
      match resR.1 with
      | some r => (some r, 1 + resL.2 + resR.2)
      | none => (resL.1, 1 + resL.2 + resR.2)

/-- `BVH::intersect` (main.cpp:335-338): an empty arena never hits and is
never indexed. -/
def bvhIntersect (nodes : List (BVHNode ℝ)) (sph : List (Sphere ℝ)) (ray : Ray ℝ)
    (t_min t_max : ℝ) : Option (HitRecord ℝ) × ℕ :=
  if nodes.isEmpty then (none, 0)
  else intersectNode nodes sph ray nodes.length 0 t_min t_max

/-- The dielectric branch of `ray_color` (main.cpp:476-489), factored:
given the material's index of refraction, the hit's `front_face` flag and
normal, the incoming ray direction, and the uniform draw `u` that
`rand01()` would produce, return the scattered direction together with
whether the draw was consumed (the C++ `||` short-circuits past `rand01()`
on total internal reflection). -/
def glassScatterDir (matIor : ℝ) (front_face : Bool) (normal rdir : Vec3 ℝ)
    (u : ℝ) : Vec3 ℝ × Bool :=
  let ior := if front_face then 1 / matIor else matIor
  let unit_dir := rdir.normalize
  let cos_theta := min ((unit_dir.neg).dot normal) 1
  let sin_theta := Real.sqrt (1 - cos_theta * cos_theta)
  let cannot_refract := ior * sin_theta > 1
  if cannot_refract then (reflect unit_dir normal, false)
  else if schlick cos_theta ior > u then (reflect unit_dir normal, true)
  else (refract unit_dir normal ior, true)

/-- The sky gradient of `ray_color` (main.cpp:452-455). -/
def background (ray : Ray ℝ) : Vec3 ℝ :=
  let unit_dir := ray.direction.normalize
  let t := (1 / 2) * (unit_dir.y + 1)
  (Vec3.smul (1 - t) ⟨1, 1, 1⟩).add (Vec3.smul t ⟨1/2, 7/10, 1⟩)

/-- `ray_color` (main.cpp:442-493).  The process-wide RNG is made explicit:
`randU` is the stream of `rand01()` draws and `randS` the stream of
`rand_in_unit_sphere()` draws, consumed at a running position.  Returns
the color, the intersection tests added to `total_tests`, and the final
stream position.  `depth : ℕ` mirrors the `depth <= 0` guard. -/
def rayColor (sph : List (Sphere ℝ)) (nodes : List (BVHNode ℝ)) (use_bvh : Bool)
    (randU : ℕ → ℝ) (randS : ℕ → Vec3 ℝ) :
    Ray ℝ → ℕ → ℕ → Vec3 ℝ × ℕ × ℕ
  | _, 0, pos => (⟨0, 0, 0⟩, 0, pos)
  | ray, depth + 1, pos =>
    let res :=
      if use_bvh then bvhIntersect nodes sph ray (1/1000) (10^10)
      else (intersectBrute sph ray (1/1000) (10^10), 0)
    let tests := res.2
    match res.1 with
    | none => (background ray, tests, pos)
    | some rec =>
      match rec.mat.type with
      | .DIFFUSE =>
        let sd := rec.normal.add (randS pos).normalize
        let sd := if sd.dot sd < 1 / 10 ^ 8 then rec.normal else sd
        let scattered : Ray ℝ := ⟨rec.point, sd.normalize⟩
        let sub := rayColor sph nodes use_bvh randU randS scattered depth (pos + 1)
        (rec.mat.albedo.hmul sub.1, tests + sub.2.1, sub.2.2)
      | .METAL =>
        let reflected := reflect ray.direction.normalize rec.normal
        let scattered : Ray ℝ := ⟨rec.point, reflected.add ((randS pos).smul rec.mat.roughness)⟩
        if scattered.direction.dot rec.normal ≤ 0 then (⟨0, 0, 0⟩, tests, pos + 1)
        else
          let sub := rayColor sph nodes use_bvh randU randS scattered depth (pos + 1)
          (rec.mat.albedo.hmul sub.1, tests + sub.2.1, sub.2.2)
      | .GLASS =>
        let g := glassScatterDir rec.mat.ior rec.front_face rec.normal ray.direction (randU pos)
        let pos' := if g.2 then pos + 1 else pos
        let scattered : Ray ℝ := ⟨rec.point, g.1⟩
        let sub := rayColor sph nodes use_bvh randU randS scattered depth pos'
        ((⟨1, 1, 1⟩ : Vec3 ℝ).hmul sub.1, tests + sub.2.1, sub.2.2)

/-! Specification-side definitions, written from the spec's words, to be
compared with the source-side definitions above. -/

/-- Spec-side Schlick reflectance (spec §4.4):
`r0 = ((1-ior)/(1+ior))^2`, `reflectance = r0 + (1-r0)*(1-cos_theta)^5`. -/
def schlickSpec (cosine ior : ℝ) : ℝ :=
  ((1 - ior) / (1 + ior)) ^ 2 + (1 - ((1 - ior) / (1 + ior)) ^ 2) * (1 - cosine) ^ 5

/-- Spec-side dielectric scatter (spec §4.4): choose the ratio from
`front_face`, reflect on total internal reflection (`ratio * sin_theta >
1`), otherwise reflect exactly when the uniform draw falls below the
Schlick reflectance and refract otherwise; attenuation is always
`(1,1,1)`. -/
def glassScatterSpec (matIor : ℝ) (front_face : Bool) (normal rdir : Vec3 ℝ)
    (u : ℝ) : Vec3 ℝ × Vec3 ℝ :=
  let ratio := if front_face then 1 / matIor else matIor
  let unit_dir := rdir.normalize
  let cos_theta := min ((unit_dir.neg).dot normal) 1
  let sin_theta := Real.sqrt (1 - cos_theta ^ 2)
  if ratio * sin_theta > 1 then (⟨1, 1, 1⟩, reflect unit_dir normal)
  else if u < schlickSpec cos_theta ratio then (⟨1, 1, 1⟩, reflect unit_dir normal)
  else (⟨1, 1, 1⟩, refract unit_dir normal ratio)

end

/-! ## Helper lemmas -/

theorem slabNarrow_le {α : Type} [LinearOrderedField α] (a : AABB α) (ray : Ray α)
    (i : ℕ) (s : α × α) :
    s.1 ≤ (AABB.slabNarrow a ray i s).1 ∧ (AABB.slabNarrow a ray i s).2 ≤ s.2 := by
  unfold AABB.slabNarrow
  exact ⟨le_max_left _ _, min_le_left _ _⟩

/-- The early-exit slab loop succeeds exactly when the interval narrowed
through all three axes is nonempty. -/
theorem intersect_eq_decide {α : Type} [LinearOrderedField α] (a : AABB α)
    (ray : Ray α) (t_min t_max : α) :
    AABB.intersect a ray t_min t_max =
      decide ((AABB.slabNarrow a ray 2 (AABB.slabNarrow a ray 1
        (AABB.slabNarrow a ray 0 (t_min, t_max)))).1 <
       (AABB.slabNarrow a ray 2 (AABB.slabNarrow a ray 1
        (AABB.slabNarrow a ray 0 (t_min, t_max)))).2) := by
  have h0 := slabNarrow_le a ray 0 (t_min, t_max)
  have h1 := slabNarrow_le a ray 1 (AABB.slabNarrow a ray 0 (t_min, t_max))
  have h2 := slabNarrow_le a ray 2 (AABB.slabNarrow a ray 1
    (AABB.slabNarrow a ray 0 (t_min, t_max)))
  unfold AABB.intersect AABB.slabAxis
  dsimp only
  by_cases c0 : (AABB.slabNarrow a ray 0 (t_min, t_max)).2 ≤
      (AABB.slabNarrow a ray 0 (t_min, t_max)).1
  · simp only [c0, if_true]
    have : (AABB.slabNarrow a ray 2 (AABB.slabNarrow a ray 1
        (AABB.slabNarrow a ray 0 (t_min, t_max)))).2 ≤
        (AABB.slabNarrow a ray 2 (AABB.slabNarrow a ray 1
        (AABB.slabNarrow a ray 0 (t_min, t_max)))).1 := by
      calc _ ≤ _ := h2.2
        _ ≤ _ := h1.2
        _ ≤ _ := c0
        _ ≤ _ := h1.1
        _ ≤ _ := h2.1
    simp [not_lt.mpr this]
  · simp only [c0, if_false]
    by_cases c1 : (AABB.slabNarrow a ray 1 (AABB.slabNarrow a ray 0 (t_min, t_max))).2 ≤
        (AABB.slabNarrow a ray 1 (AABB.slabNarrow a ray 0 (t_min, t_max))).1
    · simp only [c1, if_true]
      have : (AABB.slabNarrow a ray 2 (AABB.slabNarrow a ray 1
          (AABB.slabNarrow a ray 0 (t_min, t_max)))).2 ≤
          (AABB.slabNarrow a ray 2 (AABB.slabNarrow a ray 1
          (AABB.slabNarrow a ray 0 (t_min, t_max)))).1 := by
        calc _ ≤ _ := h2.2
          _ ≤ _ := c1
          _ ≤ _ := h2.1
      simp [not_lt.mpr this]
    · simp only [c1, if_false]
      by_cases c2 : (AABB.slabNarrow a ray 2 (AABB.slabNarrow a ray 1
          (AABB.slabNarrow a ray 0 (t_min, t_max)))).2 ≤
          (AABB.slabNarrow a ray 2 (AABB.slabNarrow a ray 1
          (AABB.slabNarrow a ray 0 (t_min, t_max)))).1
      · simp [c2, not_lt.mpr c2]
      · simp [c2, lt_of_not_le c2]

theorem schlick_eq_schlickSpec (cosine ior : ℝ) :
    schlick cosine ior = schlickSpec cosine ior := by
  unfold schlick schlickSpec
  ring

/-! ## Claim theorems -/

/-- C3: a scene with zero primitives yields an empty node arena, and for
every ray and every interval the traversal reports "no hit" (and performs
no node visit) without indexing into the empty node array. -/
theorem claim_C3_empty_scene :
    bvhBuild ([] : List (Sphere ℝ)) = [] ∧
    ∀ (ray : Ray ℝ) (t_min t_max : ℝ),
      bvhIntersect (bvhBuild ([] : List (Sphere ℝ))) [] ray t_min t_max = (none, 0) := by
  constructor
  · rfl
  · intro ray t_min t_max
    rfl

/-- C5: the slab-method ray/AABB test equals its specification — narrow
the interval on all three axes unconditionally (reciprocal per axis, swap
on negative direction) and report a hit exactly when the narrowed interval
is nonempty; the in-loop early `return false` on `t_max <= t_min` changes
nothing. -/
theorem claim_C5_slab_method {α : Type} [LinearOrderedField α] (a : AABB α)
    (ray : Ray α) (t_min t_max : α) :
    AABB.intersect a ray t_min t_max = slabSpecHit a ray t_min t_max := by
  unfold slabSpecHit
  exact intersect_eq_decide a ray t_min t_max

/-- C6 counterexample: the default-constructed merge seed has finite
sentinel components `±1e30`, not `±∞`, so `merge(a, empty) = a` fails for
a box lying beyond the sentinel. -/
theorem claim_C6_counterexample :
    AABB.merge (⟨⟨-2 * 10 ^ 30, 0, 0⟩, ⟨-2 * 10 ^ 30, 0, 0⟩⟩ : AABB ℚ) AABB.emptyBox ≠
      (⟨⟨-2 * 10 ^ 30, 0, 0⟩, ⟨-2 * 10 ^ 30, 0, 0⟩⟩ : AABB ℚ) := by
  intro h
  have hx := congrArg (fun bb => bb.max_pt.x) h
  simp only [AABB.merge, AABB.emptyBox] at hx
  rw [max_eq_right (by norm_num : (-2 * 10 ^ 30 : ℚ) ≤ -(10 ^ 30))] at hx
  norm_num at hx

/-- C6 amended: the merge seed `empty` is the default box with min
components `+1e30` and max components `-1e30` (finite sentinels rather
than `±∞`), and `merge(a, empty) = a = merge(empty, a)` for every AABB
whose min components are at most `1e30` and whose max components are at
least `-1e30`. -/
theorem claim_C6_merge_identity {α : Type} [LinearOrderedField α] (a : AABB α)
    (hmin : a.min_pt.x ≤ 10 ^ 30 ∧ a.min_pt.y ≤ 10 ^ 30 ∧ a.min_pt.z ≤ 10 ^ 30)
    (hmax : -(10 ^ 30) ≤ a.max_pt.x ∧ -(10 ^ 30) ≤ a.max_pt.y ∧ -(10 ^ 30) ≤ a.max_pt.z) :
    AABB.merge a AABB.emptyBox = a ∧ AABB.merge AABB.emptyBox a = a := by
  obtain ⟨⟨a1, a2, a3⟩, ⟨b1, b2, b3⟩⟩ := a
  obtain ⟨h1, h2, h3⟩ := hmin
  obtain ⟨h4, h5, h6⟩ := hmax
  simp only [AABB.merge, AABB.emptyBox, AABB.mk.injEq, Vec3.mk.injEq] at *
  refine ⟨⟨⟨?_, ?_, ?_⟩, ?_, ?_, ?_⟩, ⟨?_, ?_, ?_⟩, ?_, ?_, ?_⟩
  · exact min_eq_left h1
  · exact min_eq_left h2
  · exact min_eq_left h3
  · exact max_eq_left h4
  · exact max_eq_left h5
  · exact max_eq_left h6
  · exact min_eq_right h1
  · exact min_eq_right h2
  · exact min_eq_right h3
  · exact max_eq_right h4
  · exact max_eq_right h5
  · exact max_eq_right h6

/-- C6 witness: the amended identity at a concrete in-range box. -/
theorem claim_C6_merge_identity_witness :
    ((-1 : ℚ) ≤ 10 ^ 30 ∧ (-1 : ℚ) ≤ 10 ^ 30 ∧ (-1 : ℚ) ≤ 10 ^ 30) ∧
    (-(10 ^ 30) ≤ (1 : ℚ) ∧ -(10 ^ 30) ≤ (1 : ℚ) ∧ -(10 ^ 30) ≤ (1 : ℚ)) ∧
    (AABB.merge (⟨⟨-1, -1, -1⟩, ⟨1, 1, 1⟩⟩ : AABB ℚ) AABB.emptyBox =
      (⟨⟨-1, -1, -1⟩, ⟨1, 1, 1⟩⟩ : AABB ℚ) ∧
     AABB.merge AABB.emptyBox (⟨⟨-1, -1, -1⟩, ⟨1, 1, 1⟩⟩ : AABB ℚ) =
      (⟨⟨-1, -1, -1⟩, ⟨1, 1, 1⟩⟩ : AABB ℚ)) :=
  ⟨by norm_num, by norm_num,
   claim_C6_merge_identity (⟨⟨-1, -1, -1⟩, ⟨1, 1, 1⟩⟩ : AABB ℚ)
     (by norm_num) (by norm_num)⟩

/-- C8: at depth 0, `ray_color` returns black immediately — no BVH node is
visited (the test counter stays 0) and the random stream is untouched. -/
theorem claim_C8_depth_zero (sph : List (Sphere ℝ)) (nodes : List (BVHNode ℝ))
    (use_bvh : Bool) (randU : ℕ → ℝ) (randS : ℕ → Vec3 ℝ) (ray : Ray ℝ) (pos : ℕ) :
    rayColor sph nodes use_bvh randU randS ray 0 pos = (⟨0, 0, 0⟩, 0, pos) := by
  rfl

/-- C9: merging two well-formed boxes never decreases the surface area
`2*(dx*dy + dy*dz + dz*dx)` relative to either input box. -/
theorem claim_C9_surface_area_monotone {α : Type} [LinearOrderedField α]
    (a b : AABB α)
    (ha : a.min_pt.x ≤ a.max_pt.x ∧ a.min_pt.y ≤ a.max_pt.y ∧ a.min_pt.z ≤ a.max_pt.z)
    (hb : b.min_pt.x ≤ b.max_pt.x ∧ b.min_pt.y ≤ b.max_pt.y ∧ b.min_pt.z ≤ b.max_pt.z) :
    a.surface_area ≤ (AABB.merge a b).surface_area ∧
    b.surface_area ≤ (AABB.merge a b).surface_area := by
  obtain ⟨⟨a1, a2, a3⟩, ⟨a4, a5, a6⟩⟩ := a
  obtain ⟨⟨b1, b2, b3⟩, ⟨b4, b5, b6⟩⟩ := b
  obtain ⟨ha1, ha2, ha3⟩ := ha
  obtain ⟨hb1, hb2, hb3⟩ := hb
  simp only [AABB.surface_area, AABB.merge, Vec3.sub] at *
  constructor
  · have d1 : a4 - a1 ≤ max a4 b4 - min a1 b1 :=
      sub_le_sub (le_max_left _ _) (min_le_left _ _)
    have d2 : a5 - a2 ≤ max a5 b5 - min a2 b2 :=
      sub_le_sub (le_max_left _ _) (min_le_left _ _)
    have d3 : a6 - a3 ≤ max a6 b6 - min a3 b3 :=
      sub_le_sub (le_max_left _ _) (min_le_left _ _)
    have n1 : (0:α) ≤ a4 - a1 := by linarith
    have n2 : (0:α) ≤ a5 - a2 := by linarith
    have n3 : (0:α) ≤ a6 - a3 := by linarith
    have p1 : (a4 - a1) * (a5 - a2) ≤ (max a4 b4 - min a1 b1) * (max a5 b5 - min a2 b2) :=
      mul_le_mul d1 d2 n2 (le_trans n1 d1)
    have p2 : (a5 - a2) * (a6 - a3) ≤ (max a5 b5 - min a2 b2) * (max a6 b6 - min a3 b3) :=
      mul_le_mul d2 d3 n3 (le_trans n2 d2)
    have p3 : (a6 - a3) * (a4 - a1) ≤ (max a6 b6 - min a3 b3) * (max a4 b4 - min a1 b1) :=
      mul_le_mul d3 d1 n1 (le_trans n3 d3)
    linarith
  · have d1 : b4 - b1 ≤ max a4 b4 - min a1 b1 :=
      sub_le_sub (le_max_right _ _) (min_le_right _ _)
    have d2 : b5 - b2 ≤ max a5 b5 - min a2 b2 :=
      sub_le_sub (le_max_right _ _) (min_le_right _ _)
    have d3 : b6 - b3 ≤ max a6 b6 - min a3 b3 :=
      sub_le_sub (le_max_right _ _) (min_le_right _ _)
    have n1 : (0:α) ≤ b4 - b1 := by linarith
    have n2 : (0:α) ≤ b5 - b2 := by linarith
    have n3 : (0:α) ≤ b6 - b3 := by linarith
    have p1 : (b4 - b1) * (b5 - b2) ≤ (max a4 b4 - min a1 b1) * (max a5 b5 - min a2 b2) :=
      mul_le_mul d1 d2 n2 (le_trans n1 d1)
    have p2 : (b5 - b2) * (b6 - b3) ≤ (max a5 b5 - min a2 b2) * (max a6 b6 - min a3 b3) :=
      mul_le_mul d2 d3 n3 (le_trans n2 d2)
    have p3 : (b6 - b3) * (b4 - b1) ≤ (max a6 b6 - min a3 b3) * (max a4 b4 - min a1 b1) :=
      mul_le_mul d3 d1 n1 (le_trans n3 d3)
    linarith

/-- C9 witness: surface-area monotonicity at two concrete boxes. -/
theorem claim_C9_surface_area_monotone_witness :
    (((-1:ℚ) ≤ 1 ∧ (-1:ℚ) ≤ 1 ∧ (-1:ℚ) ≤ 1) ∧ ((2:ℚ) ≤ 3 ∧ (2:ℚ) ≤ 3 ∧ (2:ℚ) ≤ 3)) ∧
    ((⟨⟨-1,-1,-1⟩, ⟨1,1,1⟩⟩ : AABB ℚ).surface_area ≤
      (AABB.merge ⟨⟨-1,-1,-1⟩, ⟨1,1,1⟩⟩ ⟨⟨2,2,2⟩, ⟨3,3,3⟩⟩).surface_area ∧
     (⟨⟨2,2,2⟩, ⟨3,3,3⟩⟩ : AABB ℚ).surface_area ≤
      (AABB.merge ⟨⟨-1,-1,-1⟩, ⟨1,1,1⟩⟩ ⟨⟨2,2,2⟩, ⟨3,3,3⟩⟩).surface_area) :=
  ⟨⟨by norm_num, by norm_num⟩,
   claim_C9_surface_area_monotone (⟨⟨-1,-1,-1⟩, ⟨1,1,1⟩⟩ : AABB ℚ)
     (⟨⟨2,2,2⟩, ⟨3,3,3⟩⟩ : AABB ℚ) (by norm_num) (by norm_num)⟩

/-- C4: the dielectric branch of `ray_color` agrees with the spec-side
scatter rule — attenuation is always `(1,1,1)`, the ray reflects on total
internal reflection (`ratio * sin_theta > 1`), otherwise it reflects
exactly when the uniform draw falls below the Schlick reflectance
`r0 + (1-r0)*(1-cos_theta)^5`, `r0 = ((1-ior)/(1+ior))^2`, and refracts
otherwise; at normal incidence with material ior 1.5 the reflectance is
`0.04` for both the entering and the exiting ratio. -/
theorem claim_C4_dielectric :
    (∀ (matIor : ℝ) (front_face : Bool) (normal rdir : Vec3 ℝ) (u : ℝ),
      ((⟨1, 1, 1⟩ : Vec3 ℝ), (glassScatterDir matIor front_face normal rdir u).1) =
        glassScatterSpec matIor front_face normal rdir u) ∧
    schlick 1 (1 / (1.5 : ℝ)) = 0.04 ∧ schlick 1 (1.5 : ℝ) = 0.04 := by
  refine ⟨?_, ?_, ?_⟩
  · intro matIor front_face normal rdir u
    unfold glassScatterDir glassScatterSpec
    dsimp only
    rw [show ∀ x : ℝ, 1 - x * x = 1 - x ^ 2 from fun x => by ring]
    rw [schlick_eq_schlickSpec]
    simp only [gt_iff_lt]
    split_ifs <;> rfl
  · unfold schlick
    norm_num
  · unfold schlick
    norm_num

/-! ## Arena helper lemmas and the builder invariant -/

theorem nodeGet_append_left {α : Type} [LinearOrderedField α]
    (l l' : List (BVHNode α)) {i : ℕ} (h : i < l.length) :
    nodeGet (l ++ l') i = nodeGet l i :=
  List.getD_append l l' defNode i h

theorem nodeGet_append_right {α : Type} [LinearOrderedField α]
    (l l' : List (BVHNode α)) {i : ℕ} (h : l.length ≤ i) :
    nodeGet (l ++ l') i = nodeGet l' (i - l.length) :=
  List.getD_append_right l l' defNode i h

theorem nodeGet_set_ne {α : Type} [LinearOrderedField α]
    (l : List (BVHNode α)) {i j : ℕ} (h : i ≠ j) (v : BVHNode α) :
    nodeGet (l.set i v) j = nodeGet l j := by
  unfold nodeGet List.getD
  rw [List.get?_set_ne _ _ h]

theorem nodeGet_set_self {α : Type} [LinearOrderedField α]
    (l : List (BVHNode α)) {i : ℕ} (h : i < l.length) (v : BVHNode α) :
    nodeGet (l.set i v) i = v := by
  unfold nodeGet List.getD
  rw [List.get?_set_eq_of_lt _ h]
  rfl

theorem set_append_shift {β : Type} (l1 l2 : List β) (k : ℕ) (v : β) :
    (l1 ++ l2).set (l1.length + k) v = l1 ++ l2.set k v := by
  induction l1 with
  | nil => simp
  | cons a l1 ih => simp [Nat.succ_add, ih]

theorem filter_not_perm {β : Type} (l : List β) (p : β → Prop) [DecidablePred p] :
    ((l.filter fun a => decide (p a)) ++ (l.filter fun a => decide ¬ p a)).Perm l := by
  have h : (fun a => decide ¬ p a) = fun a => !(decide (p a)) := funext fun a => decide_not
  rw [h]
  exact List.filter_append_perm _ l

theorem sahSplit_perm {α : Type} [LinearOrderedField α] [FloorRing α]
    (sph : List (Sphere α)) (seg : List ℕ) (axis : ℕ) (cb : AABB α) :
    (sahSplit sph seg axis cb).1.Perm seg := by
  unfold sahSplit
  dsimp only
  split
  · exact List.perm_insertionSort _ seg
  · split
    · exact List.Perm.refl seg
    · split
      · exact filter_not_perm seg _
      · exact filter_not_perm seg _

/-- Per-node structural invariant of a built arena: a leaf stores a sphere
index from its range and that sphere's exact bounding box; an internal
node stores two in-bounds, distinct child indices strictly above its own
index and the merge of the children's boxes. -/
def NodeInv {α : Type} [LinearOrderedField α] (sph : List (Sphere α))
    (nodes : List (BVHNode α)) (seg : List ℕ) (j : ℕ) : Prop :=
  ((nodeGet nodes j).is_leaf = true →
    (nodeGet nodes j).left = -1 ∧ (nodeGet nodes j).right = -1 ∧
    ∃ i ∈ seg, (nodeGet nodes j).sphere_idx = (i : ℤ) ∧
      (nodeGet nodes j).bbox = (sphGet sph i).boundingBox) ∧
  ((nodeGet nodes j).is_leaf = false →
    ∃ l r : ℕ, (nodeGet nodes j).left = (l : ℤ) ∧ (nodeGet nodes j).right = (r : ℤ) ∧
      j < l ∧ l < nodes.length ∧ j < r ∧ r < nodes.length ∧ l ≠ r ∧
      (nodeGet nodes j).bbox =
        AABB.merge (nodeGet nodes l).bbox (nodeGet nodes r).bbox)

theorem NodeInv_transfer {α : Type} [LinearOrderedField α] (sph : List (Sphere α))
    {A B : List (BVHNode α)} {seg seg' : List ℕ} {j m : ℕ}
    (hj : m ≤ j)
    (hget : ∀ k, m ≤ k → k < B.length → nodeGet A k = nodeGet B k)
    (hjB : j < B.length)
    (hlen : B.length ≤ A.length)
    (hseg : ∀ i, i ∈ seg → i ∈ seg')
    (h : NodeInv sph B seg j) : NodeInv sph A seg' j := by
  obtain ⟨hL, hI⟩ := h
  have hjj : nodeGet A j = nodeGet B j := hget j hj hjB
  constructor
  · intro hl
    rw [hjj] at hl ⊢
    obtain ⟨h1, h2, i, hi, h3, h4⟩ := hL hl
    exact ⟨h1, h2, i, hseg i hi, h3, h4⟩
  · intro hl
    rw [hjj] at hl ⊢
    obtain ⟨l, r, h1, h2, hjl, hlB, hjr, hrB, hlr, hbox⟩ := hI hl
    refine ⟨l, r, h1, h2, hjl, lt_of_lt_of_le hlB hlen, hjr, lt_of_lt_of_le hrB hlen, hlr, ?_⟩
    rw [hget l (le_trans hj (le_of_lt hjl)) hlB, hget r (le_trans hj (le_of_lt hjr)) hrB]
    exact hbox

theorem build_one {α : Type} [LinearOrderedField α] [FloorRing α]
    (sph : List (Sphere α)) (i : ℕ) (arena : List (BVHNode α)) :
    build sph [i] arena =
      (arena ++ [{ bbox := (sphGet sph i).boundingBox, left := -1, right := -1,
                   sphere_idx := (i : ℤ), is_leaf := true }], arena.length) := by
  simp [build]

theorem build_cons_cons {α : Type} [LinearOrderedField α] [FloorRing α]
    (sph : List (Sphere α)) (i j0 : ℕ) (rest : List ℕ) (arena : List (BVHNode α)) :
    build sph (i :: j0 :: rest) arena =
      ((build sph ((sahSplit sph (i :: j0 :: rest)
            (chooseAxis (centroidBox sph (i :: j0 :: rest)))
            (centroidBox sph (i :: j0 :: rest))).1.drop
          (sahSplit sph (i :: j0 :: rest)
            (chooseAxis (centroidBox sph (i :: j0 :: rest)))
            (centroidBox sph (i :: j0 :: rest))).2)
         (build sph ((sahSplit sph (i :: j0 :: rest)
            (chooseAxis (centroidBox sph (i :: j0 :: rest)))
            (centroidBox sph (i :: j0 :: rest))).1.take
          (sahSplit sph (i :: j0 :: rest)
            (chooseAxis (centroidBox sph (i :: j0 :: rest)))
            (centroidBox sph (i :: j0 :: rest))).2) (arena ++ [defNode])).1).1.set
        arena.length
        { bbox := AABB.merge
            (nodeGet (build sph ((sahSplit sph (i :: j0 :: rest)
                (chooseAxis (centroidBox sph (i :: j0 :: rest)))
                (centroidBox sph (i :: j0 :: rest))).1.drop
              (sahSplit sph (i :: j0 :: rest)
                (chooseAxis (centroidBox sph (i :: j0 :: rest)))
                (centroidBox sph (i :: j0 :: rest))).2)
             (build sph ((sahSplit sph (i :: j0 :: rest)
                (chooseAxis (centroidBox sph (i :: j0 :: rest)))
                (centroidBox sph (i :: j0 :: rest))).1.take
              (sahSplit sph (i :: j0 :: rest)
                (chooseAxis (centroidBox sph (i :: j0 :: rest)))
                (centroidBox sph (i :: j0 :: rest))).2) (arena ++ [defNode])).1).1
              (build sph ((sahSplit sph (i :: j0 :: rest)
                (chooseAxis (centroidBox sph (i :: j0 :: rest)))
                (centroidBox sph (i :: j0 :: rest))).1.take
              (sahSplit sph (i :: j0 :: rest)
                (chooseAxis (centroidBox sph (i :: j0 :: rest)))
                (centroidBox sph (i :: j0 :: rest))).2) (arena ++ [defNode])).2).bbox
            (nodeGet (build sph ((sahSplit sph (i :: j0 :: rest)
                (chooseAxis (centroidBox sph (i :: j0 :: rest)))
                (centroidBox sph (i :: j0 :: rest))).1.drop
              (sahSplit sph (i :: j0 :: rest)
                (chooseAxis (centroidBox sph (i :: j0 :: rest)))
                (centroidBox sph (i :: j0 :: rest))).2)
             (build sph ((sahSplit sph (i :: j0 :: rest)
                (chooseAxis (centroidBox sph (i :: j0 :: rest)))
                (centroidBox sph (i :: j0 :: rest))).1.take
              (sahSplit sph (i :: j0 :: rest)
                (chooseAxis (centroidBox sph (i :: j0 :: rest)))
                (centroidBox sph (i :: j0 :: rest))).2) (arena ++ [defNode])).1).1
              (build sph ((sahSplit sph (i :: j0 :: rest)
                (chooseAxis (centroidBox sph (i :: j0 :: rest)))
                (centroidBox sph (i :: j0 :: rest))).1.drop
              (sahSplit sph (i :: j0 :: rest)
                (chooseAxis (centroidBox sph (i :: j0 :: rest)))
                (centroidBox sph (i :: j0 :: rest))).2)
             (build sph ((sahSplit sph (i :: j0 :: rest)
                (chooseAxis (centroidBox sph (i :: j0 :: rest)))
                (centroidBox sph (i :: j0 :: rest))).1.take
              (sahSplit sph (i :: j0 :: rest)
                (chooseAxis (centroidBox sph (i :: j0 :: rest)))
                (centroidBox sph (i :: j0 :: rest))).2) (arena ++ [defNode])).1).2).bbox,
          left := ((build sph ((sahSplit sph (i :: j0 :: rest)
                (chooseAxis (centroidBox sph (i :: j0 :: rest)))
                (centroidBox sph (i :: j0 :: rest))).1.take
              (sahSplit sph (i :: j0 :: rest)
                (chooseAxis (centroidBox sph (i :: j0 :: rest)))
                (centroidBox sph (i :: j0 :: rest))).2) (arena ++ [defNode])).2 : ℤ),
          right := ((build sph ((sahSplit sph (i :: j0 :: rest)
                (chooseAxis (centroidBox sph (i :: j0 :: rest)))
                (centroidBox sph (i :: j0 :: rest))).1.drop
              (sahSplit sph (i :: j0 :: rest)
                (chooseAxis (centroidBox sph (i :: j0 :: rest)))
                (centroidBox sph (i :: j0 :: rest))).2)
             (build sph ((sahSplit sph (i :: j0 :: rest)
                (chooseAxis (centroidBox sph (i :: j0 :: rest)))
                (centroidBox sph (i :: j0 :: rest))).1.take
              (sahSplit sph (i :: j0 :: rest)
                (chooseAxis (centroidBox sph (i :: j0 :: rest)))
                (centroidBox sph (i :: j0 :: rest))).2) (arena ++ [defNode])).1).2 : ℤ),
          sphere_idx := -1, is_leaf := false },
       arena.length) := by
  conv_lhs => rw [build]

/-- `Covers sph nodes j seg`: the subtree of the arena rooted at node `j`
reaches exactly the leaves holding the sphere indices `seg`, left subtree
first; child indices strictly increase along every path. -/
inductive Covers {α : Type} [LinearOrderedField α] (sph : List (Sphere α))
    (nodes : List (BVHNode α)) : ℕ → List ℕ → Prop where
  | leaf : ∀ (j i : ℕ), j < nodes.length → (nodeGet nodes j).is_leaf = true →
      (nodeGet nodes j).sphere_idx = Int.ofNat i → Covers sph nodes j [i]
  | node : ∀ (j l r : ℕ) (segL segR : List ℕ), j < nodes.length →
      (nodeGet nodes j).is_leaf = false →
      (nodeGet nodes j).left = Int.ofNat l → (nodeGet nodes j).right = Int.ofNat r →
      j < l → j < r →
      Covers sph nodes l segL → Covers sph nodes r segR →
      Covers sph nodes j (segL ++ segR)

theorem Covers_transfer {α : Type} [LinearOrderedField α] {sph : List (Sphere α)}
    {A B : List (BVHNode α)} {m : ℕ}
    (hget : ∀ k, m ≤ k → k < B.length → nodeGet A k = nodeGet B k)
    (hlen : B.length ≤ A.length) :
    ∀ {j seg}, m ≤ j → Covers sph B j seg → Covers sph A j seg := by
  intro j seg hj hc
  induction hc with
  | leaf j i hjB hl hs =>
    exact Covers.leaf j i (lt_of_lt_of_le hjB hlen)
      (by rw [hget j hj hjB]; exact hl) (by rw [hget j hj hjB]; exact hs)
  | node j l r segL segR hjB hl hle hri hjl hjr hcL hcR ihL ihR =>
    exact Covers.node j l r segL segR (lt_of_lt_of_le hjB hlen)
      (by rw [hget j hj hjB]; exact hl)
      (by rw [hget j hj hjB]; exact hle)
      (by rw [hget j hj hjB]; exact hri)
      hjl hjr (ihL (by omega)) (ihR (by omega))

/-- Master invariant of `BVH::build`: building a nonempty range onto an
arena appends exactly `2*len - 1` nodes, returns the index of the first of
them, never rewrites the existing prefix, the leaves of the new nodes hold
exactly the range's sphere indices, and every new node satisfies
`NodeInv`. -/
theorem build_spec {α : Type} [LinearOrderedField α] [FloorRing α]
    (sph : List (Sphere α)) :
    ∀ (n : ℕ) (seg : List ℕ) (arena : List (BVHNode α)),
      seg.length ≤ n → seg ≠ [] →
      ∃ newNodes : List (BVHNode α),
        (build sph seg arena).1 = arena ++ newNodes ∧
        (build sph seg arena).2 = arena.length ∧
        newNodes.length = 2 * seg.length - 1 ∧
        ((newNodes.filter (fun nd => nd.is_leaf)).map (fun nd => nd.sphere_idx)).Perm
          (seg.map (fun i => Int.ofNat i)) ∧
        (∀ j, arena.length ≤ j → j < arena.length + newNodes.length →
          NodeInv sph (build sph seg arena).1 seg j) ∧
        (∃ seg' : List ℕ, seg'.Perm seg ∧
          Covers sph (build sph seg arena).1 arena.length seg') := by
  intro n
  induction n with
  | zero =>
    intro seg arena hle hne
    cases seg with
    | nil => exact absurd rfl hne
    | cons a l => simp at hle
  | succ n ih =>
    intro seg arena hle hne
    match seg with
    | [] => exact absurd rfl hne
    | [i] =>
      have hget : nodeGet
          (arena ++ [(⟨(sphGet sph i).boundingBox, -1, -1, (i : ℤ), true⟩ : BVHNode α)])
          arena.length = ⟨(sphGet sph i).boundingBox, -1, -1, (i : ℤ), true⟩ := by
        rw [nodeGet_append_right _ _ (le_refl _), Nat.sub_self]
        rfl
      refine ⟨[⟨(sphGet sph i).boundingBox, -1, -1, (i : ℤ), true⟩], ?_, ?_, ?_, ?_, ?_, ?_⟩
      · rw [build_one]
      · rw [build_one]
      · rfl
      · simp [List.filter_cons]
      · intro j hj1 hj2
        have hj : j = arena.length := by
          simp only [List.length_cons, List.length_nil] at hj2
          omega
        subst hj
        rw [build_one]
        constructor
        · intro _
          rw [hget]
          exact ⟨rfl, rfl, i, List.mem_singleton_self i, rfl, rfl⟩
        · intro hfalse
          rw [hget] at hfalse
          simp at hfalse
      · refine ⟨[i], List.Perm.refl _, ?_⟩
        rw [build_one]
        exact Covers.leaf arena.length i (by simp) (by rw [hget]) (by rw [hget]; rfl)
    | i :: j0 :: rest =>
      have hlen2 : 2 ≤ (i :: j0 :: rest).length := by simp
      set CB := centroidBox sph (i :: j0 :: rest) with hCB
      set AX := chooseAxis CB with hAX
      set SP := sahSplit sph (i :: j0 :: rest) AX CB with hSP
      have hk1 : 0 < SP.2 := sahSplit_snd_pos sph _ AX CB hlen2
      have hk2 : SP.2 < (i :: j0 :: rest).length := sahSplit_snd_lt sph _ AX CB hlen2
      have hsplen : SP.1.length = (i :: j0 :: rest).length :=
        sahSplit_fst_length sph _ AX CB
      have hspperm : SP.1.Perm (i :: j0 :: rest) := sahSplit_perm sph _ AX CB
      set segL := SP.1.take SP.2 with hsegL
      set segR := SP.1.drop SP.2 with hsegR
      have hlenL : segL.length = SP.2 := by
        rw [hsegL, List.length_take]
        omega
      have hlenR : segR.length = (i :: j0 :: rest).length - SP.2 := by
        rw [hsegR, List.length_drop, hsplen]
      have hneL : segL ≠ [] := by
        apply List.ne_nil_of_length_pos
        omega
      have hneR : segR ≠ [] := by
        apply List.ne_nil_of_length_pos
        have : 0 < (i :: j0 :: rest).length - SP.2 := by omega
        omega
      obtain ⟨NL, eL1, eL2, eL3, eL4, eL5, eL6⟩ :=
        ih segL (arena ++ [defNode]) (by omega) hneL
      set resL := build sph segL (arena ++ [defNode]) with hresL
      obtain ⟨NR, eR1, eR2, eR3, eR4, eR5, eR6⟩ := ih segR resL.1 (by omega) hneR
      set resR := build sph segR resL.1 with hresR
      have hm1 : (arena ++ [defNode (α := α)]).length = arena.length + 1 := by simp
      have hNL1 : 1 ≤ NL.length := by omega
      have hNR1 : 1 ≤ NR.length := by omega
      have hlenresL : resL.1.length = arena.length + 1 + NL.length := by
        rw [eL1]
        simp
        omega
      have hlenresR : resR.1.length = resL.1.length + NR.length := by
        rw [eR1]
        simp
      have hresL2 : resL.2 = arena.length + 1 := by rw [eL2, hm1]
      have hresR2 : resR.2 = resL.1.length := eR2
      rw [build_cons_cons]
      rw [← hCB, ← hAX, ← hSP, ← hsegL, ← hsegR, ← hresL, ← hresR]
      dsimp only
      set theNode : BVHNode α :=
        (⟨AABB.merge (nodeGet resR.1 resL.2).bbox (nodeGet resR.1 resR.2).bbox,
          (resL.2 : ℤ), (resR.2 : ℤ), -1, false⟩ : BVHNode α) with hTheNode
      have hsplit : resR.1 = arena ++ ([defNode] ++ (NL ++ NR)) := by
        rw [eR1, eL1]
        simp
      have hfinal : resR.1.set arena.length theNode =
          arena ++ (theNode :: (NL ++ NR)) := by
        rw [hsplit]
        have h0 : arena.length = arena.length + 0 := by omega
        rw [h0, set_append_shift]
        simp
      have hsum : segL.length + segR.length = rest.length + 2 := by
        simp only [List.length_cons] at hk2 hlenR
        omega
      have hfin_len : (resR.1.set arena.length theNode).length = resR.1.length := by
        simp
      have hmlt : arena.length < resR.1.length := by omega
      have gm : nodeGet (resR.1.set arena.length theNode) arena.length = theNode :=
        nodeGet_set_self _ hmlt theNode
      have gne : ∀ k, k ≠ arena.length →
          nodeGet (resR.1.set arena.length theNode) k = nodeGet resR.1 k :=
        fun k hk => nodeGet_set_ne _ (fun h => hk h.symm) theNode
      have gL : ∀ k, k < resL.1.length → nodeGet resR.1 k = nodeGet resL.1 k := by
        intro k hk
        rw [eR1]
        exact nodeGet_append_left _ _ hk
      refine ⟨theNode :: (NL ++ NR), hfinal, rfl, ?_, ?_, ?_, ?_⟩
      · simp only [List.length_cons, List.length_append, List.length_cons]
        omega
      · have hnodef : theNode.is_leaf = false := rfl
        rw [List.filter_cons_of_neg (by simp [hnodef])]
        rw [List.filter_append, List.map_append]
        refine ((eL4.append eR4).trans ?_)
        rw [← List.map_append]
        refine (List.Perm.map _ ?_)
        rw [hsegL, hsegR, List.take_append_drop]
        exact hspperm

      · intro j hj1 hj2
        have htot : j < resR.1.length := by
          simp only [List.length_cons, List.length_append] at hj2
          omega
        rcases Nat.lt_or_ge j (arena.length + 1) with hcase | hcase
        · -- j = arena.length : the internal node emitted for this range
          have hj : j = arena.length := by omega
          subst hj
          constructor
          · intro habs
            rw [gm] at habs
            simp [hTheNode] at habs
          · intro _
            rw [gm]
            refine ⟨resL.2, resR.2, rfl, rfl, ?_, ?_, ?_, ?_, ?_, ?_⟩
            · omega
            · omega
            · omega
            · omega
            · omega
            · have hne1 : resL.2 ≠ arena.length := by omega
              have hne2 : resR.2 ≠ arena.length := by omega
              rw [gne resL.2 hne1, gne resR.2 hne2]
        · rcases Nat.lt_or_ge j resL.1.length with hcase2 | hcase2
          · -- j inside the left child's nodes
            have hinv := eL5 j (by omega) (by omega)
            refine NodeInv_transfer sph (m := arena.length + 1) (by omega) ?_ hcase2
              (by omega) ?_ hinv
            · intro k hk hkB
              rw [gne k (by omega), gL k hkB]
            · intro x hx
              have hx1 : x ∈ SP.1 := List.mem_of_mem_take hx
              exact hspperm.mem_iff.mp hx1
          · -- j inside the right child's nodes
            have hinv := eR5 j hcase2 (by omega)
            refine NodeInv_transfer sph (m := resL.1.length) hcase2 ?_ (by omega)
              (by omega) ?_ hinv
            · intro k hk hkB
              rw [gne k (by omega)]
            · intro x hx
              have hx1 : x ∈ SP.1 := List.mem_of_mem_drop hx
              exact hspperm.mem_iff.mp hx1
      · -- coverage of the whole range from the emitted root node
        obtain ⟨segL', hpL, hCL⟩ := eL6
        obtain ⟨segR', hpR, hCR⟩ := eR6
        refine ⟨segL' ++ segR', ?_, ?_⟩
        · refine (hpL.append hpR).trans ?_
          rw [hsegL, hsegR, List.take_append_drop]
          exact hspperm
        · have hCL0 : Covers sph resL.1 (arena.length + 1) segL' := by
            rw [← hm1]
            exact hCL
          have hCLA : Covers sph (resR.1.set arena.length theNode)
              (arena.length + 1) segL' :=
            Covers_transfer (fun k hk hkB => by rw [gne k (by omega), gL k hkB])
              (by omega) (le_refl _) hCL0
          have hCRA : Covers sph (resR.1.set arena.length theNode)
              resL.1.length segR' :=
            Covers_transfer (fun k hk hkB => by rw [gne k (by omega)])
              (by omega) (le_refl _) hCR
          refine Covers.node arena.length resL.2 resR.2 segL' segR'
            (by omega) ?_ ?_ ?_ (by omega) (by omega) ?_ ?_
          · rw [gm]
          · rw [gm]
            rfl
          · rw [gm]
            rfl
          · rw [hresL2]
            exact hCLA
          · rw [hresR2]
            exact hCRA

/-- Componentwise box containment: `inner` lies inside `outer`. -/
def boxContains {α : Type} [LinearOrderedField α] (outer inner : AABB α) : Prop :=
  outer.min_pt.x ≤ inner.min_pt.x ∧ outer.min_pt.y ≤ inner.min_pt.y ∧
  outer.min_pt.z ≤ inner.min_pt.z ∧ inner.max_pt.x ≤ outer.max_pt.x ∧
  inner.max_pt.y ≤ outer.max_pt.y ∧ inner.max_pt.z ≤ outer.max_pt.z

theorem merge_contains {α : Type} [LinearOrderedField α] (a b : AABB α) :
    boxContains (AABB.merge a b) a ∧ boxContains (AABB.merge a b) b := by
  unfold boxContains AABB.merge
  refine ⟨⟨?_, ?_, ?_, ?_, ?_, ?_⟩, ?_, ?_, ?_, ?_, ?_, ?_⟩ <;>
    first
      | exact min_le_left _ _
      | exact min_le_right _ _
      | exact le_max_left _ _
      | exact le_max_right _ _

/-- C2: in every BVH built from a nonempty sphere list, every leaf node's
box is exactly the bounding box of its sphere, and every internal node's
box equals the merge of its two children's boxes — in particular it
contains both children's boxes. -/
theorem claim_C2_containment {α : Type} [LinearOrderedField α] [FloorRing α]
    (sph : List (Sphere α)) (hne : sph ≠ []) :
    ∀ j, j < (bvhBuild sph).length →
      ((nodeGet (bvhBuild sph) j).is_leaf = true →
        (nodeGet (bvhBuild sph) j).bbox =
          (sphGet sph (nodeGet (bvhBuild sph) j).sphere_idx.toNat).boundingBox) ∧
      ((nodeGet (bvhBuild sph) j).is_leaf = false →
        (nodeGet (bvhBuild sph) j).bbox =
          AABB.merge (nodeGet (bvhBuild sph) (nodeGet (bvhBuild sph) j).left.toNat).bbox
            (nodeGet (bvhBuild sph) (nodeGet (bvhBuild sph) j).right.toNat).bbox ∧
        boxContains (nodeGet (bvhBuild sph) j).bbox
          (nodeGet (bvhBuild sph) (nodeGet (bvhBuild sph) j).left.toNat).bbox ∧
        boxContains (nodeGet (bvhBuild sph) j).bbox
          (nodeGet (bvhBuild sph) (nodeGet (bvhBuild sph) j).right.toNat).bbox) := by
  intro j hj
  have hB : bvhBuild sph = (build sph (List.range sph.length) []).1 := by
    unfold bvhBuild
    rw [if_neg (by simpa using hne)]
  obtain ⟨newNodes, e1, e2, e3, e4, e5, e6⟩ :=
    build_spec sph (List.range sph.length).length (List.range sph.length) [] (le_refl _)
      (by simpa using hne)
  have hlen : (build sph (List.range sph.length) []).1.length = newNodes.length := by
    rw [e1]
    simp
  have hinv := e5 j (by simp) (by
    rw [hB] at hj
    simp only [List.length_nil, Nat.zero_add]
    omega)
  obtain ⟨hleaf, hint⟩ := hinv
  rw [hB]
  constructor
  · intro hl
    obtain ⟨_, _, i, _, hsi, hbox⟩ := hleaf hl
    rw [hsi, hbox]
    rfl
  · intro hl
    obtain ⟨l, r, h1, h2, _, _, _, _, _, hbox⟩ := hint hl
    rw [h1, h2, hbox]
    constructor
    · rfl
    · exact merge_contains _ _

/-- Concrete two-sphere scene over `ℚ` used by witnesses. -/
def twoSphereScene : List (Sphere ℚ) :=
  [⟨⟨0, 0, 0⟩, 1, Material.diffuse ⟨1, 0, 0⟩⟩, ⟨⟨4, 0, 0⟩, 1, Material.diffuse ⟨0, 1, 0⟩⟩]

/-- C2 witness: the containment theorem applied to a concrete two-sphere
scene. -/
theorem claim_C2_containment_witness :
    twoSphereScene ≠ [] ∧
    (∀ j, j < (bvhBuild twoSphereScene).length →
      ((nodeGet (bvhBuild twoSphereScene) j).is_leaf = true →
        (nodeGet (bvhBuild twoSphereScene) j).bbox =
          (sphGet twoSphereScene
            (nodeGet (bvhBuild twoSphereScene) j).sphere_idx.toNat).boundingBox) ∧
      ((nodeGet (bvhBuild twoSphereScene) j).is_leaf = false →
        (nodeGet (bvhBuild twoSphereScene) j).bbox =
          AABB.merge
            (nodeGet (bvhBuild twoSphereScene)
              (nodeGet (bvhBuild twoSphereScene) j).left.toNat).bbox
            (nodeGet (bvhBuild twoSphereScene)
              (nodeGet (bvhBuild twoSphereScene) j).right.toNat).bbox ∧
        boxContains (nodeGet (bvhBuild twoSphereScene) j).bbox
          (nodeGet (bvhBuild twoSphereScene)
            (nodeGet (bvhBuild twoSphereScene) j).left.toNat).bbox ∧
        boxContains (nodeGet (bvhBuild twoSphereScene) j).bbox
          (nodeGet (bvhBuild twoSphereScene)
            (nodeGet (bvhBuild twoSphereScene) j).right.toNat).bbox)) :=
  ⟨by simp [twoSphereScene], claim_C2_containment twoSphereScene (by simp [twoSphereScene])⟩

/-- C10: a BVH built from `n ≥ 1` spheres has exactly `2*n - 1` arena
nodes, every internal node has two distinct in-bounds child indices, every
leaf holds one in-range sphere index, and the leaves' sphere indices are a
permutation of `0, ..., n-1`. -/
theorem claim_C10_arena_shape {α : Type} [LinearOrderedField α] [FloorRing α]
    (sph : List (Sphere α)) (hne : sph ≠ []) :
    (bvhBuild sph).length = 2 * sph.length - 1 ∧
    (∀ j, j < (bvhBuild sph).length →
      ((nodeGet (bvhBuild sph) j).is_leaf = false →
        ∃ l r : ℕ, (nodeGet (bvhBuild sph) j).left = (l : ℤ) ∧
          (nodeGet (bvhBuild sph) j).right = (r : ℤ) ∧
          l < (bvhBuild sph).length ∧ r < (bvhBuild sph).length ∧ l ≠ r) ∧
      ((nodeGet (bvhBuild sph) j).is_leaf = true →
        ∃ i : ℕ, i < sph.length ∧ (nodeGet (bvhBuild sph) j).sphere_idx = (i : ℤ))) ∧
    (((bvhBuild sph).filter (fun nd => nd.is_leaf)).map (fun nd => nd.sphere_idx)).Perm
      ((List.range sph.length).map (fun i => Int.ofNat i)) := by
  have hB : bvhBuild sph = (build sph (List.range sph.length) []).1 := by
    unfold bvhBuild
    rw [if_neg (by simpa using hne)]
  obtain ⟨newNodes, e1, e2, e3, e4, e5, e6⟩ :=
    build_spec sph (List.range sph.length).length (List.range sph.length) [] (le_refl _)
      (by simpa using hne)
  have hnew : bvhBuild sph = newNodes := by
    rw [hB, e1]
    rfl
  refine ⟨?_, ?_, ?_⟩
  · rw [hnew, e3]
    simp
  · intro j hj
    rw [hB] at hj ⊢
    have hlen : (build sph (List.range sph.length) []).1.length = newNodes.length := by
      rw [e1]
      simp
    have hinv := e5 j (by simp) (by
      simp only [List.length_nil, Nat.zero_add]
      omega)
    obtain ⟨hleaf, hint⟩ := hinv
    constructor
    · intro hl
      obtain ⟨l, r, h1, h2, _, hlB, _, hrB, hlr, _⟩ := hint hl
      exact ⟨l, r, h1, h2, hlB, hrB, hlr⟩
    · intro hl
      obtain ⟨_, _, i, hi, hsi, _⟩ := hleaf hl
      exact ⟨i, List.mem_range.mp hi, hsi⟩
  · rw [hnew]
    exact e4

/-- C10 witness: the arena-shape theorem at a concrete two-sphere scene. -/
theorem claim_C10_arena_shape_witness :
    twoSphereScene ≠ [] ∧
    (bvhBuild twoSphereScene).length = 2 * twoSphereScene.length - 1 :=
  ⟨by simp [twoSphereScene],
   (claim_C10_arena_shape twoSphereScene (by simp [twoSphereScene])).1⟩

/-- Concrete five-sphere scene over `ℚ` whose centroids all lie within
`1e-10` of each other on the longest axis, in strictly decreasing order. -/
def fiveSphereScene : List (Sphere ℚ) :=
  [⟨⟨4/10^11, 0, 0⟩, 1, Material.diffuse ⟨1,1,1⟩⟩,
   ⟨⟨3/10^11, 0, 0⟩, 1, Material.diffuse ⟨1,1,1⟩⟩,
   ⟨⟨2/10^11, 0, 0⟩, 1, Material.diffuse ⟨1,1,1⟩⟩,
   ⟨⟨1/10^11, 0, 0⟩, 1, Material.diffuse ⟨1,1,1⟩⟩,
   ⟨⟨0, 0, 0⟩, 1, Material.diffuse ⟨1,1,1⟩⟩]

/-- C7 counterexample: on a 5-primitive range whose centroid extent on the
chosen axis is below the `1e-10` epsilon, `sah_split` returns the range
unchanged with offset `count/2` — it does NOT sort the range by centroid
coordinate, so the "median split on the sorted centroid values" the claim
describes does not happen (the returned range is in strictly decreasing
centroid order). -/
theorem claim_C7_counterexample :
    sahSplit fiveSphereScene [0, 1, 2, 3, 4]
        (chooseAxis (centroidBox fiveSphereScene [0, 1, 2, 3, 4]))
        (centroidBox fiveSphereScene [0, 1, 2, 3, 4]) = ([0, 1, 2, 3, 4], 2) ∧
    ¬ List.Chain' (fun a b =>
        centerKey fiveSphereScene
            (chooseAxis (centroidBox fiveSphereScene [0, 1, 2, 3, 4])) a ≤
        centerKey fiveSphereScene
            (chooseAxis (centroidBox fiveSphereScene [0, 1, 2, 3, 4])) b)
      (sahSplit fiveSphereScene [0, 1, 2, 3, 4]
        (chooseAxis (centroidBox fiveSphereScene [0, 1, 2, 3, 4]))
        (centroidBox fiveSphereScene [0, 1, 2, 3, 4])).1 := by
  have hcb : centroidBox fiveSphereScene [0, 1, 2, 3, 4] =
      ⟨⟨0, 0, 0⟩, ⟨4/10^11, 0, 0⟩⟩ := by
    unfold centroidBox fiveSphereScene growPoint sphGet AABB.emptyBox
    norm_num [List.foldl, List.getD, min_def, max_def]
  have hax : chooseAxis (⟨⟨0, 0, 0⟩, ⟨4/10^11, 0, 0⟩⟩ : AABB ℚ) = 0 := by
    norm_num [chooseAxis, Vec3.sub, Vec3.axisGet]
  have hsplit : sahSplit fiveSphereScene [0, 1, 2, 3, 4] 0
      (⟨⟨0, 0, 0⟩, ⟨4/10^11, 0, 0⟩⟩ : AABB ℚ) = ([0, 1, 2, 3, 4], 2) := by
    unfold sahSplit
    dsimp only
    rw [if_neg (by norm_num), if_pos (by norm_num [Vec3.axisGet])]
    rfl
  rw [hcb, hax, hsplit]
  constructor
  · rfl
  · simp [List.chain'_cons, centerKey, sphGet, fiveSphereScene, Vec3.axisGet]

/-- C7 amended: only the small-count fallback (`count <= 4`) performs the
median split on the range sorted by centroid coordinate; the
degenerate-extent fallback (`extent < 1e-10`) returns the range in its
existing (unsorted) order with offset `count/2`, and the one-sided-SAH
fallback returns the range in partitioned (not sorted) order with offset
`count/2`. -/
theorem claim_C7_fallbacks {α : Type} [LinearOrderedField α] [FloorRing α]
    (sph : List (Sphere α)) (seg : List ℕ) (axis : ℕ) (cb : AABB α) :
    (seg.length ≤ 4 →
      sahSplit sph seg axis cb =
        (seg.insertionSort (fun a b => centerKey sph axis a ≤ centerKey sph axis b),
         seg.length / 2)) ∧
    (4 < seg.length →
      cb.max_pt.axisGet axis - cb.min_pt.axisGet axis < 1 / 10 ^ 10 →
      sahSplit sph seg axis cb = (seg, seg.length / 2)) ∧
    (4 < seg.length →
      ¬ (cb.max_pt.axisGet axis - cb.min_pt.axisGet axis < 1 / 10 ^ 10) →
      ((seg.filter fun idx =>
          decide (centerKey sph axis idx < splitVal sph seg axis cb)).length = 0 ∨
       (seg.filter fun idx =>
          decide (centerKey sph axis idx < splitVal sph seg axis cb)).length = seg.length) →
      sahSplit sph seg axis cb =
        ((seg.filter fun idx =>
            decide (centerKey sph axis idx < splitVal sph seg axis cb)) ++
         (seg.filter fun idx =>
            decide ¬ (centerKey sph axis idx < splitVal sph seg axis cb)),
         seg.length / 2)) := by
  refine ⟨?_, ?_, ?_⟩
  · intro h
    unfold sahSplit
    dsimp only
    rw [if_pos h]
  · intro h4 hext
    unfold sahSplit
    dsimp only
    rw [if_neg (by omega), if_pos hext]
  · intro h4 hext hdeg
    unfold sahSplit
    dsimp only
    rw [if_neg (by omega), if_neg hext, if_pos hdeg]

/-- C7 witness: the small-count sorted-median fallback at a concrete
two-element range. -/
theorem claim_C7_fallbacks_witness :
    (([0, 1] : List ℕ).length ≤ 4) ∧
    sahSplit twoSphereScene [0, 1] 0 AABB.emptyBox =
      (([0, 1] : List ℕ).insertionSort
        (fun a b => centerKey twoSphereScene 0 a ≤ centerKey twoSphereScene 0 b),
       ([0, 1] : List ℕ).length / 2) :=
  ⟨by simp, (claim_C7_fallbacks twoSphereScene [0, 1] 0 AABB.emptyBox).1 (by simp)⟩

/-! ## Sphere-intersection lemmas -/

theorem dot_self_nonneg (v : Vec3 ℝ) : 0 ≤ v.dot v := by
  unfold Vec3.dot
  nlinarith [sq_nonneg v.x, sq_nonneg v.y, sq_nonneg v.z]

theorem rootA_le_rootB (a half_b disc : ℝ) (ha : 0 ≤ a) (hd : 0 ≤ disc) :
    (-half_b - Real.sqrt disc) / a ≤ (-half_b + Real.sqrt disc) / a := by
  rcases eq_or_lt_of_le ha with h0 | hpos
  · rw [← h0]
    simp
  · have hs : 0 ≤ Real.sqrt disc := Real.sqrt_nonneg disc
    exact (div_le_div_right hpos).mpr (by linarith)

theorem hit_bounds {s : Sphere ℝ} {ray : Ray ℝ} {lo hi : ℝ} {rec : HitRecord ℝ}
    (h : Sphere.hit s ray lo hi = some rec) :
    lo ≤ rec.t ∧ rec.t ≤ hi := by
  unfold Sphere.hit at h
  dsimp only at h
  split_ifs at h with hd h1 h2
  · exact absurd h (by simp)
  · simp only [Option.map_some', Option.some_inj] at h
    push_neg at h2
    subst h
    exact ⟨h2.1, h2.2⟩
  · simp only [Option.map_some', Option.some_inj] at h
    push_neg at h1
    subst h
    exact ⟨h1.1, h1.2⟩

/-- Growing the upper end of the query window preserves a sphere hit. -/
theorem hit_mono {s : Sphere ℝ} {ray : Ray ℝ} {lo c hi : ℝ} {rec : HitRecord ℝ}
    (hc : c ≤ hi) (h : Sphere.hit s ray lo c = some rec) :
    Sphere.hit s ray lo hi = some rec := by
  unfold Sphere.hit at h ⊢
  dsimp only at h ⊢
  split_ifs at h with hd h1 h2
  · exact absurd h (by simp)
  · -- the accepted root was the larger one
    have hAB := rootA_le_rootB (ray.direction.dot ray.direction)
      ((ray.origin.sub s.center).dot ray.direction)
      ((ray.origin.sub s.center).dot ray.direction *
          (ray.origin.sub s.center).dot ray.direction -
        ray.direction.dot ray.direction *
          ((ray.origin.sub s.center).dot (ray.origin.sub s.center) -
            s.radius * s.radius))
      (dot_self_nonneg _) (not_lt.mp hd)
    push_neg at h2
    have hAlo : (-(ray.origin.sub s.center).dot ray.direction -
        Real.sqrt ((ray.origin.sub s.center).dot ray.direction *
            (ray.origin.sub s.center).dot ray.direction -
          ray.direction.dot ray.direction *
            ((ray.origin.sub s.center).dot (ray.origin.sub s.center) -
              s.radius * s.radius))) / ray.direction.dot ray.direction < lo := by
      rcases h1 with h' | h'
      · exact h'
      · linarith [h2.2]
    rw [if_neg hd, if_pos (Or.inl hAlo), if_neg (not_or.mpr
      ⟨not_lt.mpr h2.1, not_lt.mpr (le_trans h2.2 hc)⟩)]
    exact h
  · push_neg at h1
    rw [if_neg hd, if_neg (not_or.mpr
      ⟨not_lt.mpr h1.1, not_lt.mpr (le_trans h1.2 hc)⟩)]
    exact h

/-- Shrinking the upper end of the query window down to (at least) the hit
parameter preserves the hit. -/
theorem hit_anti {s : Sphere ℝ} {ray : Ray ℝ} {lo c hi : ℝ} {rec : HitRecord ℝ}
    (h : Sphere.hit s ray lo hi = some rec) (ht : rec.t ≤ c) (_hc : c ≤ hi) :
    Sphere.hit s ray lo c = some rec := by
  unfold Sphere.hit at h ⊢
  dsimp only at h ⊢
  split_ifs at h with hd h1 h2
  · exact absurd h (by simp)
  · have hAB := rootA_le_rootB (ray.direction.dot ray.direction)
      ((ray.origin.sub s.center).dot ray.direction)
      ((ray.origin.sub s.center).dot ray.direction *
          (ray.origin.sub s.center).dot ray.direction -
        ray.direction.dot ray.direction *
          ((ray.origin.sub s.center).dot (ray.origin.sub s.center) -
            s.radius * s.radius))
      (dot_self_nonneg _) (not_lt.mp hd)
    push_neg at h2
    have hrt : rec.t = (-(ray.origin.sub s.center).dot ray.direction +
        Real.sqrt ((ray.origin.sub s.center).dot ray.direction *
            (ray.origin.sub s.center).dot ray.direction -
          ray.direction.dot ray.direction *
            ((ray.origin.sub s.center).dot (ray.origin.sub s.center) -
              s.radius * s.radius))) / ray.direction.dot ray.direction := by
      simp only [Option.map_some', Option.some_inj] at h
      rw [← h]
    have hAlo : (-(ray.origin.sub s.center).dot ray.direction -
        Real.sqrt ((ray.origin.sub s.center).dot ray.direction *
            (ray.origin.sub s.center).dot ray.direction -
          ray.direction.dot ray.direction *
            ((ray.origin.sub s.center).dot (ray.origin.sub s.center) -
              s.radius * s.radius))) / ray.direction.dot ray.direction < lo := by
      rcases h1 with h' | h'
      · exact h'
      · linarith [h2.2]
    rw [hrt] at ht
    rw [if_neg hd, if_pos (Or.inl hAlo), if_neg (not_or.mpr
      ⟨not_lt.mpr h2.1, not_lt.mpr ht⟩)]
    exact h
  · push_neg at h1
    have hrt : rec.t = (-(ray.origin.sub s.center).dot ray.direction -
        Real.sqrt ((ray.origin.sub s.center).dot ray.direction *
            (ray.origin.sub s.center).dot ray.direction -
          ray.direction.dot ray.direction *
            ((ray.origin.sub s.center).dot (ray.origin.sub s.center) -
              s.radius * s.radius))) / ray.direction.dot ray.direction := by
      simp only [Option.map_some', Option.some_inj] at h
      rw [← h]
    rw [hrt] at ht
    rw [if_neg hd, if_neg (not_or.mpr ⟨not_lt.mpr h1.1, not_lt.mpr ht⟩)]
    exact h

theorem rootA_solves (a hb c0 s' : ℝ) (ha : a ≠ 0) (hs : s' ^ 2 = hb * hb - a * c0) :
    a * ((-hb - s') / a) ^ 2 + 2 * hb * ((-hb - s') / a) + c0 = 0 := by
  field_simp
  linear_combination a ^ 2 * hs

theorem rootB_solves (a hb c0 s' : ℝ) (ha : a ≠ 0) (hs : s' ^ 2 = hb * hb - a * c0) :
    a * ((-hb + s') / a) ^ 2 + 2 * hb * ((-hb + s') / a) + c0 = 0 := by
  field_simp
  linear_combination a ^ 2 * hs

theorem at_on_sphere (s : Sphere ℝ) (ray : Ray ℝ) (t : ℝ) (p : Vec3 ℝ)
    (hp : p = ray.at t)
    (hroot : ray.direction.dot ray.direction * t ^ 2 +
      2 * ((ray.origin.sub s.center).dot ray.direction) * t +
      ((ray.origin.sub s.center).dot (ray.origin.sub s.center) -
        s.radius * s.radius) = 0) :
    (p.x - s.center.x) ^ 2 + (p.y - s.center.y) ^ 2 + (p.z - s.center.z) ^ 2 =
      s.radius ^ 2 := by
  subst hp
  dsimp only [Ray.at, Vec3.add, Vec3.smul, Vec3.sub, Vec3.dot] at *
  linear_combination hroot

/-- An accepted hit parameter solves the sphere's quadratic: the returned
point lies exactly on the sphere's surface. -/
theorem hit_on_sphere {s : Sphere ℝ} {ray : Ray ℝ} {lo hi : ℝ} {rec : HitRecord ℝ}
    (ha : ray.direction.dot ray.direction ≠ 0)
    (h : Sphere.hit s ray lo hi = some rec) :
    (rec.point.x - s.center.x) ^ 2 + (rec.point.y - s.center.y) ^ 2 +
      (rec.point.z - s.center.z) ^ 2 = s.radius ^ 2 ∧
    rec.point = ray.at rec.t := by
  unfold Sphere.hit at h
  dsimp only at h
  split_ifs at h with hd h1 h2
  · exact absurd h (by simp)
  · simp only [Option.map_some', Option.some_inj] at h
    have hs : Real.sqrt ((ray.origin.sub s.center).dot ray.direction *
          (ray.origin.sub s.center).dot ray.direction -
        ray.direction.dot ray.direction *
          ((ray.origin.sub s.center).dot (ray.origin.sub s.center) -
            s.radius * s.radius)) ^ 2 =
        (ray.origin.sub s.center).dot ray.direction *
          (ray.origin.sub s.center).dot ray.direction -
        ray.direction.dot ray.direction *
          ((ray.origin.sub s.center).dot (ray.origin.sub s.center) -
            s.radius * s.radius) := Real.sq_sqrt (not_lt.mp hd)
    subst h
    exact ⟨at_on_sphere s ray _ _ rfl (rootB_solves _ _ _ _ ha hs), rfl⟩
  · simp only [Option.map_some', Option.some_inj] at h
    have hs : Real.sqrt ((ray.origin.sub s.center).dot ray.direction *
          (ray.origin.sub s.center).dot ray.direction -
        ray.direction.dot ray.direction *
          ((ray.origin.sub s.center).dot (ray.origin.sub s.center) -
            s.radius * s.radius)) ^ 2 =
        (ray.origin.sub s.center).dot ray.direction *
          (ray.origin.sub s.center).dot ray.direction -
        ray.direction.dot ray.direction *
          ((ray.origin.sub s.center).dot (ray.origin.sub s.center) -
            s.radius * s.radius) := Real.sq_sqrt (not_lt.mp hd)
    subst h
    exact ⟨at_on_sphere s ray _ _ rfl (rootA_solves _ _ _ _ ha hs), rfl⟩

/-! ## Brute-force loop characterization -/

/-- The shrinking-window fold of `Scene::intersect_brute` either leaves the
accumulator untouched (no sphere hits the window) or returns a record that
is a genuine sphere hit and minimal among all sphere hits of the window. -/
theorem bruteLoop_spec (ray : Ray ℝ) (lo : ℝ) :
    ∀ (l : List (Sphere ℝ)) (closest : ℝ) (acc : Option (HitRecord ℝ)),
      (bruteLoop ray lo l closest acc = acc ∧
        ∀ s ∈ l, Sphere.hit s ray lo closest = none) ∨
      (∃ rec, bruteLoop ray lo l closest acc = some rec ∧ rec.t ≤ closest ∧
        (∃ s ∈ l, Sphere.hit s ray lo closest = some rec) ∧
        (∀ s ∈ l, ∀ r', Sphere.hit s ray lo closest = some r' → rec.t ≤ r'.t)) := by
  intro l
  induction l with
  | nil =>
    intro closest acc
    left
    exact ⟨rfl, by simp⟩
  | cons s l' ih =>
    intro closest acc
    rcases hhit : Sphere.hit s ray lo closest with _ | tmp
    · rcases ih closest acc with ⟨he, hall⟩ | ⟨rec, he, hb, ⟨s', hs', hhit'⟩, hmin⟩
      · left
        refine ⟨?_, ?_⟩
        · simp only [bruteLoop, hhit]
          exact he
        · intro s'' hs''
          rcases List.mem_cons.mp hs'' with h | h
          · subst h
            exact hhit
          · exact hall s'' h
      · right
        refine ⟨rec, ?_, hb, ⟨s', List.mem_cons_of_mem _ hs', hhit'⟩, ?_⟩
        · simp only [bruteLoop, hhit]
          exact he
        · intro s'' hs'' r' hr'
          rcases List.mem_cons.mp hs'' with h | h
          · subst h
            rw [hhit] at hr'
            exact absurd hr' (by simp)
          · exact hmin s'' h r' hr'
    · have htb := hit_bounds hhit
      rcases ih tmp.t (some tmp) with ⟨he, hall⟩ | ⟨rec, he, hb, ⟨s', hs', hhit'⟩, hmin⟩
      · right
        refine ⟨tmp, ?_, htb.2, ⟨s, List.mem_cons_self _ _, hhit⟩, ?_⟩
        · simp only [bruteLoop, hhit]
          exact he
        · intro s'' hs'' r' hr'
          rcases List.mem_cons.mp hs'' with h | h
          · subst h
            rw [hhit, Option.some_inj] at hr'
            rw [← hr']
          · by_contra hlt
            push_neg at hlt
            have hanti := hit_anti hr' (le_of_lt hlt) htb.2
            rw [hall s'' h] at hanti
            exact absurd hanti (by simp)
      · right
        refine ⟨rec, ?_, le_trans hb htb.2,
            ⟨s', List.mem_cons_of_mem _ hs', hit_mono htb.2 hhit'⟩, ?_⟩
        · simp only [bruteLoop, hhit]
          exact he
        · intro s'' hs'' r' hr'
          rcases List.mem_cons.mp hs'' with h | h
          · subst h
            rw [hhit, Option.some_inj] at hr'
            rw [← hr']
            exact hb
          · by_cases hle : r'.t ≤ tmp.t
            · exact hmin s'' h r' (hit_anti hr' hle htb.2)
            · push_neg at hle
              linarith

theorem intersectBrute_none {sph : List (Sphere ℝ)} {ray : Ray ℝ} {lo hi : ℝ}
    (h : intersectBrute sph ray lo hi = none) :
    ∀ s ∈ sph, Sphere.hit s ray lo hi = none := by
  rcases bruteLoop_spec ray lo sph hi none with ⟨_, hall⟩ | ⟨rec, he, _, _, _⟩
  · exact hall
  · unfold intersectBrute at h
    rw [he] at h
    exact absurd h (by simp)

theorem intersectBrute_some {sph : List (Sphere ℝ)} {ray : Ray ℝ} {lo hi : ℝ}
    {rec : HitRecord ℝ} (h : intersectBrute sph ray lo hi = some rec) :
    rec.t ≤ hi ∧ (∃ s ∈ sph, Sphere.hit s ray lo hi = some rec) ∧
    (∀ s ∈ sph, ∀ r', Sphere.hit s ray lo hi = some r' → rec.t ≤ r'.t) := by
  rcases bruteLoop_spec ray lo sph hi none with ⟨he, _⟩ | ⟨rec', he, hb, hex, hmin⟩
  · unfold intersectBrute at h
    rw [he] at h
    exact absurd h (by simp)
  · unfold intersectBrute at h
    rw [he, Option.some_inj] at h
    subst h
    exact ⟨hb, hex, hmin⟩

theorem intersectBrute_of_hit {sph : List (Sphere ℝ)} {ray : Ray ℝ} {lo hi : ℝ}
    {s : Sphere ℝ} {r : HitRecord ℝ} (hs : s ∈ sph)
    (h : Sphere.hit s ray lo hi = some r) :
    ∃ rec, intersectBrute sph ray lo hi = some rec := by
  rcases bruteLoop_spec ray lo sph hi none with ⟨_, hall⟩ | ⟨rec, he, _, _, _⟩
  · rw [hall s hs] at h
    exact absurd h (by simp)
  · exact ⟨rec, he⟩

/-! ## Slab geometry -/

/-- The sorted entry/exit pair of one slab axis (the `(t0, t1)`-after-swap
of `AABB::intersect`); `slabNarrow` is exactly `max`/`min` against it. -/
noncomputable def slabPair (b : AABB ℝ) (ray : Ray ℝ) (i : ℕ) : ℝ × ℝ :=
  let inv_d := 1 / ray.direction.axisGet i
  let t0 := (b.min_pt.axisGet i - ray.origin.axisGet i) * inv_d
  let t1 := (b.max_pt.axisGet i - ray.origin.axisGet i) * inv_d
  if inv_d < 0 then (t1, t0) else (t0, t1)

theorem slabNarrow_eq_pair (b : AABB ℝ) (ray : Ray ℝ) (i : ℕ) (s : ℝ × ℝ) :
    AABB.slabNarrow b ray i s =
      (max s.1 (slabPair b ray i).1, min s.2 (slabPair b ray i).2) := rfl

theorem slabPair_neg (b : AABB ℝ) (ray : Ray ℝ) (i : ℕ)
    (hneg : ray.direction.axisGet i < 0) :
    slabPair b ray i =
      ((b.max_pt.axisGet i - ray.origin.axisGet i) / ray.direction.axisGet i,
       (b.min_pt.axisGet i - ray.origin.axisGet i) / ray.direction.axisGet i) := by
  unfold slabPair
  dsimp only
  rw [if_pos (one_div_neg.mpr hneg), mul_one_div, mul_one_div]

theorem slabPair_pos (b : AABB ℝ) (ray : Ray ℝ) (i : ℕ)
    (hpos : 0 < ray.direction.axisGet i) :
    slabPair b ray i =
      ((b.min_pt.axisGet i - ray.origin.axisGet i) / ray.direction.axisGet i,
       (b.max_pt.axisGet i - ray.origin.axisGet i) / ray.direction.axisGet i) := by
  unfold slabPair
  dsimp only
  rw [if_neg (not_lt.mpr (le_of_lt (one_div_pos.mpr hpos))), mul_one_div, mul_one_div]

theorem slabPair_bounds {b : AABB ℝ} {ray : Ray ℝ} {i : ℕ} {t : ℝ}
    (hd : ray.direction.axisGet i ≠ 0)
    (h1 : b.min_pt.axisGet i ≤ ray.origin.axisGet i + t * ray.direction.axisGet i)
    (h2 : ray.origin.axisGet i + t * ray.direction.axisGet i ≤ b.max_pt.axisGet i) :
    (slabPair b ray i).1 ≤ t ∧ t ≤ (slabPair b ray i).2 := by
  rcases hd.lt_or_lt with hneg | hpos
  · rw [slabPair_neg b ray i hneg]
    constructor
    · dsimp only
      rw [div_le_iff_of_neg hneg]
      nlinarith
    · dsimp only
      rw [le_div_iff_of_neg hneg]
      nlinarith
  · rw [slabPair_pos b ray i hpos]
    constructor
    · dsimp only
      rw [div_le_iff hpos]
      nlinarith
    · dsimp only
      rw [le_div_iff hpos]
      nlinarith

theorem slabPair_low_boundary {b : AABB ℝ} {ray : Ray ℝ} {i : ℕ} {t : ℝ}
    (hd : ray.direction.axisGet i ≠ 0)
    (heq : (slabPair b ray i).1 = t) :
    ray.origin.axisGet i + t * ray.direction.axisGet i = b.min_pt.axisGet i ∨
    ray.origin.axisGet i + t * ray.direction.axisGet i = b.max_pt.axisGet i := by
  rcases hd.lt_or_lt with hneg | hpos
  · rw [slabPair_neg b ray i hneg] at heq
    dsimp only at heq
    right
    have := (div_eq_iff hd).mp heq
    linarith
  · rw [slabPair_pos b ray i hpos] at heq
    dsimp only at heq
    left
    have := (div_eq_iff hd).mp heq
    linarith

theorem slabPair_high_strict {b : AABB ℝ} {ray : Ray ℝ} {i : ℕ} {t : ℝ}
    (hd : ray.direction.axisGet i ≠ 0)
    (h1 : b.min_pt.axisGet i < ray.origin.axisGet i + t * ray.direction.axisGet i)
    (h2 : ray.origin.axisGet i + t * ray.direction.axisGet i < b.max_pt.axisGet i) :
    t < (slabPair b ray i).2 := by
  rcases hd.lt_or_lt with hneg | hpos
  · rw [slabPair_neg b ray i hneg]
    dsimp only
    rw [lt_div_iff_of_neg hneg]
    nlinarith
  · rw [slabPair_pos b ray i hpos]
    dsimp only
    rw [lt_div_iff hpos]
    nlinarith

theorem slabPair_low_lt_high {b : AABB ℝ} {ray : Ray ℝ} {i : ℕ}
    (hd : ray.direction.axisGet i ≠ 0)
    (hw : b.min_pt.axisGet i < b.max_pt.axisGet i) :
    (slabPair b ray i).1 < (slabPair b ray i).2 := by
  rcases hd.lt_or_lt with hneg | hpos
  · rw [slabPair_neg b ray i hneg]
    dsimp only
    rw [div_lt_div_right_of_neg hneg]
    nlinarith
  · rw [slabPair_pos b ray i hpos]
    dsimp only
    rw [div_lt_div_right hpos]
    nlinarith

set_option maxHeartbeats 1600000 in
/-- Interior-hit lemma: if the ray hits a positive-radius sphere at
parameter `t` strictly inside the query window, and the tested box
contains the sphere's bounding box, then the slab test accepts.  This is
why only window-boundary or box-boundary coincidences can make the
`t_max <= t_min` early-out reject a genuine hit. -/
theorem box_test_of_interior {b : AABB ℝ} {s : Sphere ℝ} {ray : Ray ℝ}
    {lo hi t : ℝ} {p : Vec3 ℝ}
    (hp : p = ray.at t)
    (hr : 0 < s.radius)
    (hdx : ray.direction.x ≠ 0) (hdy : ray.direction.y ≠ 0)
    (hdz : ray.direction.z ≠ 0)
    (hcont : boxContains b s.boundingBox)
    (hons : (p.x - s.center.x) ^ 2 + (p.y - s.center.y) ^ 2 +
      (p.z - s.center.z) ^ 2 = s.radius ^ 2)
    (hlo : lo < t) (hhi : t < hi) :
    AABB.intersect b ray lo hi = true := by
  unfold boxContains Sphere.boundingBox at hcont
  dsimp only [Vec3.sub, Vec3.add] at hcont
  obtain ⟨hc1, hc2, hc3, hc4, hc5, hc6⟩ := hcont
  have hpx : p.x = ray.origin.x + t * ray.direction.x := by
    rw [hp]
    dsimp only [Ray.at, Vec3.add, Vec3.smul]
    ring
  have hpy : p.y = ray.origin.y + t * ray.direction.y := by
    rw [hp]
    dsimp only [Ray.at, Vec3.add, Vec3.smul]
    ring
  have hpz : p.z = ray.origin.z + t * ray.direction.z := by
    rw [hp]
    dsimp only [Ray.at, Vec3.add, Vec3.smul]
    ring
  have hsx1 : s.center.x - s.radius ≤ p.x := by
    nlinarith [sq_nonneg (p.y - s.center.y), sq_nonneg (p.z - s.center.z),
      sq_nonneg (p.x - s.center.x + s.radius)]
  have hsx2 : p.x ≤ s.center.x + s.radius := by
    nlinarith [sq_nonneg (p.y - s.center.y), sq_nonneg (p.z - s.center.z),
      sq_nonneg (p.x - s.center.x - s.radius)]
  have hsy1 : s.center.y - s.radius ≤ p.y := by
    nlinarith [sq_nonneg (p.x - s.center.x), sq_nonneg (p.z - s.center.z),
      sq_nonneg (p.y - s.center.y + s.radius)]
  have hsy2 : p.y ≤ s.center.y + s.radius := by
    nlinarith [sq_nonneg (p.x - s.center.x), sq_nonneg (p.z - s.center.z),
      sq_nonneg (p.y - s.center.y - s.radius)]
  have hsz1 : s.center.z - s.radius ≤ p.z := by
    nlinarith [sq_nonneg (p.x - s.center.x), sq_nonneg (p.y - s.center.y),
      sq_nonneg (p.z - s.center.z + s.radius)]
  have hsz2 : p.z ≤ s.center.z + s.radius := by
    nlinarith [sq_nonneg (p.x - s.center.x), sq_nonneg (p.y - s.center.y),
      sq_nonneg (p.z - s.center.z - s.radius)]
  have hm0 : b.min_pt.axisGet 0 ≤ ray.origin.axisGet 0 + t * ray.direction.axisGet 0 := by
    show b.min_pt.x ≤ ray.origin.x + t * ray.direction.x
    rw [← hpx]
    linarith
  have hM0 : ray.origin.axisGet 0 + t * ray.direction.axisGet 0 ≤ b.max_pt.axisGet 0 := by
    show ray.origin.x + t * ray.direction.x ≤ b.max_pt.x
    rw [← hpx]
    linarith
  have hm1 : b.min_pt.axisGet 1 ≤ ray.origin.axisGet 1 + t * ray.direction.axisGet 1 := by
    show b.min_pt.y ≤ ray.origin.y + t * ray.direction.y
    rw [← hpy]
    linarith
  have hM1 : ray.origin.axisGet 1 + t * ray.direction.axisGet 1 ≤ b.max_pt.axisGet 1 := by
    show ray.origin.y + t * ray.direction.y ≤ b.max_pt.y
    rw [← hpy]
    linarith
  have hm2 : b.min_pt.axisGet 2 ≤ ray.origin.axisGet 2 + t * ray.direction.axisGet 2 := by
    show b.min_pt.z ≤ ray.origin.z + t * ray.direction.z
    rw [← hpz]
    linarith
  have hM2 : ray.origin.axisGet 2 + t * ray.direction.axisGet 2 ≤ b.max_pt.axisGet 2 := by
    show ray.origin.z + t * ray.direction.z ≤ b.max_pt.z
    rw [← hpz]
    linarith
  have hd0 : ray.direction.axisGet 0 ≠ 0 := hdx
  have hd1 : ray.direction.axisGet 1 ≠ 0 := hdy
  have hd2 : ray.direction.axisGet 2 ≠ 0 := hdz
  have B0 := slabPair_bounds hd0 hm0 hM0
  have B1 := slabPair_bounds hd1 hm1 hM1
  have B2 := slabPair_bounds hd2 hm2 hM2
  have hw0 : b.min_pt.axisGet 0 < b.max_pt.axisGet 0 := by
    show b.min_pt.x < b.max_pt.x
    linarith
  have hw1 : b.min_pt.axisGet 1 < b.max_pt.axisGet 1 := by
    show b.min_pt.y < b.max_pt.y
    linarith
  have hw2 : b.min_pt.axisGet 2 < b.max_pt.axisGet 2 := by
    show b.min_pt.z < b.max_pt.z
    linarith
  rw [intersect_eq_decide]
  rw [slabNarrow_eq_pair, slabNarrow_eq_pair, slabNarrow_eq_pair]
  dsimp only
  apply decide_eq_true
  have hmaxle : max (max (max lo (slabPair b ray 0).1) (slabPair b ray 1).1)
      (slabPair b ray 2).1 ≤ t :=
    max_le (max_le (max_le hlo.le B0.1) B1.1) B2.1
  rcases lt_or_eq_of_le hmaxle with hlt | heq
  · exact lt_of_lt_of_le hlt (le_min (le_min (le_min hhi.le B0.2) B1.2) B2.2)
  · -- the narrowed lower end hits `t` exactly: some axis low equals `t`
    have hax : (slabPair b ray 0).1 = t ∨ (slabPair b ray 1).1 = t ∨
        (slabPair b ray 2).1 = t := by
      by_contra hno
      push_neg at hno
      have : max (max (max lo (slabPair b ray 0).1) (slabPair b ray 1).1)
          (slabPair b ray 2).1 < t :=
        max_lt (max_lt (max_lt hlo (lt_of_le_of_ne B0.1 hno.1))
          (lt_of_le_of_ne B1.1 hno.2.1)) (lt_of_le_of_ne B2.1 hno.2.2)
      linarith
    rw [heq]
    rcases hax with hcx | hcy | hcz
    · -- contact on the x-axis: the hit point is an axis-extreme sphere point
      have hbd := slabPair_low_boundary hd0 hcx
      have hx2 : (p.x - s.center.x) ^ 2 = s.radius ^ 2 := by
        rcases hbd with h | h
        · have h' : p.x = b.min_pt.x := by
            rw [hpx]
            exact h
          have : p.x = s.center.x - s.radius := by linarith
          rw [this]
          ring
        · have h' : p.x = b.max_pt.x := by
            rw [hpx]
            exact h
          have : p.x = s.center.x + s.radius := by linarith
          rw [this]
          ring
      have hsum0 : (p.y - s.center.y) ^ 2 + (p.z - s.center.z) ^ 2 = 0 := by
        linarith
      have hy0 : (p.y - s.center.y) ^ 2 = 0 := by
        linarith [sq_nonneg (p.y - s.center.y), sq_nonneg (p.z - s.center.z)]
      have hz0 : (p.z - s.center.z) ^ 2 = 0 := by
        linarith [sq_nonneg (p.y - s.center.y), sq_nonneg (p.z - s.center.z)]
      have hy : p.y = s.center.y :=
        sub_eq_zero.mp ((pow_eq_zero_iff (by norm_num)).mp hy0)
      have hz : p.z = s.center.z :=
        sub_eq_zero.mp ((pow_eq_zero_iff (by norm_num)).mp hz0)
      have H0 : t < (slabPair b ray 0).2 := hcx ▸ slabPair_low_lt_high hd0 hw0
      have H1 : t < (slabPair b ray 1).2 := by
        refine slabPair_high_strict hd1 ?_ ?_
        · show b.min_pt.y < ray.origin.y + t * ray.direction.y
          rw [← hpy]
          linarith
        · show ray.origin.y + t * ray.direction.y < b.max_pt.y
          rw [← hpy]
          linarith
      have H2 : t < (slabPair b ray 2).2 := by
        refine slabPair_high_strict hd2 ?_ ?_
        · show b.min_pt.z < ray.origin.z + t * ray.direction.z
          rw [← hpz]
          linarith
        · show ray.origin.z + t * ray.direction.z < b.max_pt.z
          rw [← hpz]
          linarith
      exact lt_min (lt_min (lt_min hhi H0) H1) H2
    · -- contact on the y-axis
      have hbd := slabPair_low_boundary hd1 hcy
      have hy2 : (p.y - s.center.y) ^ 2 = s.radius ^ 2 := by
        rcases hbd with h | h
        · have h' : p.y = b.min_pt.y := by
            rw [hpy]
            exact h
          have : p.y = s.center.y - s.radius := by linarith
          rw [this]
          ring
        · have h' : p.y = b.max_pt.y := by
            rw [hpy]
            exact h
          have : p.y = s.center.y + s.radius := by linarith
          rw [this]
          ring
      have hsum0 : (p.x - s.center.x) ^ 2 + (p.z - s.center.z) ^ 2 = 0 := by
        linarith
      have hx0 : (p.x - s.center.x) ^ 2 = 0 := by
        linarith [sq_nonneg (p.x - s.center.x), sq_nonneg (p.z - s.center.z)]
      have hz0 : (p.z - s.center.z) ^ 2 = 0 := by
        linarith [sq_nonneg (p.x - s.center.x), sq_nonneg (p.z - s.center.z)]
      have hx : p.x = s.center.x :=
        sub_eq_zero.mp ((pow_eq_zero_iff (by norm_num)).mp hx0)
      have hz : p.z = s.center.z :=
        sub_eq_zero.mp ((pow_eq_zero_iff (by norm_num)).mp hz0)
      have H1 : t < (slabPair b ray 1).2 := hcy ▸ slabPair_low_lt_high hd1 hw1
      have H0 : t < (slabPair b ray 0).2 := by
        refine slabPair_high_strict hd0 ?_ ?_
        · show b.min_pt.x < ray.origin.x + t * ray.direction.x
          rw [← hpx]
          linarith
        · show ray.origin.x + t * ray.direction.x < b.max_pt.x
          rw [← hpx]
          linarith
      have H2 : t < (slabPair b ray 2).2 := by
        refine slabPair_high_strict hd2 ?_ ?_
        · show b.min_pt.z < ray.origin.z + t * ray.direction.z
          rw [← hpz]
          linarith
        · show ray.origin.z + t * ray.direction.z < b.max_pt.z
          rw [← hpz]
          linarith
      exact lt_min (lt_min (lt_min hhi H0) H1) H2
    · -- contact on the z-axis
      have hbd := slabPair_low_boundary hd2 hcz
      have hz2 : (p.z - s.center.z) ^ 2 = s.radius ^ 2 := by
        rcases hbd with h | h
        · have h' : p.z = b.min_pt.z := by
            rw [hpz]
            exact h
          have : p.z = s.center.z - s.radius := by linarith
          rw [this]
          ring
        · have h' : p.z = b.max_pt.z := by
            rw [hpz]
            exact h
          have : p.z = s.center.z + s.radius := by linarith
          rw [this]
          ring
      have hsum0 : (p.x - s.center.x) ^ 2 + (p.y - s.center.y) ^ 2 = 0 := by
        linarith
      have hx0 : (p.x - s.center.x) ^ 2 = 0 := by
        linarith [sq_nonneg (p.x - s.center.x), sq_nonneg (p.y - s.center.y)]
      have hy0 : (p.y - s.center.y) ^ 2 = 0 := by
        linarith [sq_nonneg (p.x - s.center.x), sq_nonneg (p.y - s.center.y)]
      have hx : p.x = s.center.x :=
        sub_eq_zero.mp ((pow_eq_zero_iff (by norm_num)).mp hx0)
      have hy : p.y = s.center.y :=
        sub_eq_zero.mp ((pow_eq_zero_iff (by norm_num)).mp hy0)
      have H2 : t < (slabPair b ray 2).2 := hcz ▸ slabPair_low_lt_high hd2 hw2
      have H0 : t < (slabPair b ray 0).2 := by
        refine slabPair_high_strict hd0 ?_ ?_
        · show b.min_pt.x < ray.origin.x + t * ray.direction.x
          rw [← hpx]
          linarith
        · show ray.origin.x + t * ray.direction.x < b.max_pt.x
          rw [← hpx]
          linarith
      have H1 : t < (slabPair b ray 1).2 := by
        refine slabPair_high_strict hd1 ?_ ?_
        · show b.min_pt.y < ray.origin.y + t * ray.direction.y
          rw [← hpy]
          linarith
        · show ray.origin.y + t * ray.direction.y < b.max_pt.y
          rw [← hpy]
          linarith
      exact lt_min (lt_min (lt_min hhi H0) H1) H2

/-! ## Traversal lemmas -/

theorem boxContains_refl {α : Type} [LinearOrderedField α] (a : AABB α) :
    boxContains a a := by
  unfold boxContains
  exact ⟨le_refl _, le_refl _, le_refl _, le_refl _, le_refl _, le_refl _⟩

theorem boxContains_trans {α : Type} [LinearOrderedField α] {a b c : AABB α}
    (h1 : boxContains a b) (h2 : boxContains b c) : boxContains a c := by
  unfold boxContains at *
  exact ⟨le_trans h1.1 h2.1, le_trans h1.2.1 h2.2.1, le_trans h1.2.2.1 h2.2.2.1,
    le_trans h2.2.2.2.1 h1.2.2.2.1, le_trans h2.2.2.2.2.1 h1.2.2.2.2.1,
    le_trans h2.2.2.2.2.2 h1.2.2.2.2.2⟩

theorem dot_self_pos {v : Vec3 ℝ} (hx : v.x ≠ 0) : 0 < v.dot v := by
  unfold Vec3.dot
  have h1 : 0 < v.x * v.x := mul_self_pos.mpr hx
  have h2 : 0 ≤ v.y * v.y := mul_self_nonneg _
  have h3 : 0 ≤ v.z * v.z := mul_self_nonneg _
  linarith

/-- Well-formedness of an arena for traversal: every node satisfies
`NodeInv` over the full index range. -/
def WFArena (sph : List (Sphere ℝ)) (nodes : List (BVHNode ℝ)) : Prop :=
  ∀ j, j < nodes.length → NodeInv sph nodes (List.range sph.length) j

theorem covers_indices {sph : List (Sphere ℝ)} {nodes : List (BVHNode ℝ)}
    (hwf : WFArena sph nodes) :
    ∀ {j seg}, Covers sph nodes j seg → ∀ i ∈ seg, i < sph.length := by
  intro j seg hc
  induction hc with
  | leaf j i hj hl hs =>
    intro i' hi'
    rw [List.mem_singleton] at hi'
    subst hi'
    obtain ⟨hleaf, _⟩ := hwf j hj
    obtain ⟨_, _, i0, hi0, hsi, _⟩ := hleaf hl
    have : Int.ofNat i' = (i0 : ℤ) := by rw [← hs, hsi]
    have hii : i' = i0 := Int.ofNat.inj this
    rw [hii]
    exact List.mem_range.mp hi0
  | node j l r segL segR hj hl hle hri hjl hjr hcL hcR ihL ihR =>
    intro i hi
    rcases List.mem_append.mp hi with h | h
    · exact ihL i h
    · exact ihR i h

theorem covers_box {sph : List (Sphere ℝ)} {nodes : List (BVHNode ℝ)}
    (hwf : WFArena sph nodes) :
    ∀ {j seg}, Covers sph nodes j seg → ∀ i ∈ seg,
      boxContains (nodeGet nodes j).bbox (sphGet sph i).boundingBox := by
  intro j seg hc
  induction hc with
  | leaf j i hj hl hs =>
    intro i' hi'
    rw [List.mem_singleton] at hi'
    subst hi'
    obtain ⟨hleaf, _⟩ := hwf j hj
    obtain ⟨_, _, i0, _, hsi, hbox⟩ := hleaf hl
    have : Int.ofNat i' = (i0 : ℤ) := by rw [← hs, hsi]
    have hii : i' = i0 := Int.ofNat.inj this
    rw [hii, hbox]
    exact boxContains_refl _
  | node j l r segL segR hj hl hle hri hjl hjr hcL hcR ihL ihR =>
    intro i hi
    obtain ⟨_, hint⟩ := hwf j hj
    obtain ⟨l', r', hle', hri', _, _, _, _, _, hbox⟩ := hint hl
    have hll : l' = l := by
      have : (l' : ℤ) = Int.ofNat l := by rw [← hle', hle]
      exact (Int.ofNat.inj this).symm |>.symm
    have hrr : r' = r := by
      have : (r' : ℤ) = Int.ofNat r := by rw [← hri', hri]
      exact (Int.ofNat.inj this).symm |>.symm
    subst hll
    subst hrr
    rcases List.mem_append.mp hi with h | h
    · refine boxContains_trans ?_ (ihL i h)
      rw [hbox]
      exact (merge_contains _ _).1
    · refine boxContains_trans ?_ (ihR i h)
      rw [hbox]
      exact (merge_contains _ _).2

theorem intersectNode_succ_nobox (nodes : List (BVHNode ℝ)) (sph : List (Sphere ℝ))
    (ray : Ray ℝ) (fuel idx : ℕ) (lo hi : ℝ)
    (hbox : (nodeGet nodes idx).bbox.intersect ray lo hi = false) :
    intersectNode nodes sph ray (fuel + 1) idx lo hi = (none, 1) := by
  rw [intersectNode]
  dsimp only
  rw [if_pos]
  rw [hbox]
  simp

theorem intersectNode_succ_leaf (nodes : List (BVHNode ℝ)) (sph : List (Sphere ℝ))
    (ray : Ray ℝ) (fuel idx : ℕ) (lo hi : ℝ)
    (hbox : (nodeGet nodes idx).bbox.intersect ray lo hi = true)
    (hleaf : (nodeGet nodes idx).is_leaf = true) :
    intersectNode nodes sph ray (fuel + 1) idx lo hi =
      ((sphGet sph (nodeGet nodes idx).sphere_idx.toNat).hit ray lo hi, 1) := by
  rw [intersectNode]
  dsimp only
  rw [if_neg, if_pos]
  · rw [hleaf]
  · rw [hbox]
    simp

theorem intersectNode_succ_node (nodes : List (BVHNode ℝ)) (sph : List (Sphere ℝ))
    (ray : Ray ℝ) (fuel idx : ℕ) (lo hi : ℝ)
    (hbox : (nodeGet nodes idx).bbox.intersect ray lo hi = true)
    (hleaf : (nodeGet nodes idx).is_leaf = false)
    {l r : ℕ}
    (hle : (nodeGet nodes idx).left = Int.ofNat l)
    (hri : (nodeGet nodes idx).right = Int.ofNat r) :
    intersectNode nodes sph ray (fuel + 1) idx lo hi =
      (let resL := intersectNode nodes sph ray fuel l lo hi
       let t_closest := match resL.1 with | some r0 => r0.t | none => hi
       let resR := intersectNode nodes sph ray fuel r lo t_closest
       match resR.1 with
       | some r0 => (some r0, 1 + resL.2 + resR.2)
       | none => (resL.1, 1 + resL.2 + resR.2)) := by
  rw [intersectNode]
  dsimp only
  rw [if_neg, if_neg]
  · rw [hle, hri]
    rw [if_pos, if_pos]
    · have htl : (Int.ofNat l).toNat = l := rfl
      have htr : (Int.ofNat r).toNat = r := rfl
      rw [htl, htr]
    · exact Int.ofNat_le.mpr (Nat.zero_le l)
    · exact Int.ofNat_le.mpr (Nat.zero_le r)
  · rw [hleaf]
    simp
  · rw [hbox]
    simp

/-- Soundness of traversal: any hit record returned by `intersect_node`
on a subtree covering `seg` is a genuine sphere hit of some index in `seg`,
valid in the original `[lo, hi]` window. -/
theorem intersectNode_sound {nodes : List (BVHNode ℝ)} {sph : List (Sphere ℝ)}
    {ray : Ray ℝ} :
    ∀ (fuel : ℕ) {idx : ℕ} {seg : List ℕ} {lo hi : ℝ} {rec : HitRecord ℝ},
      Covers sph nodes idx seg →
      (intersectNode nodes sph ray fuel idx lo hi).1 = some rec →
      ∃ i ∈ seg, Sphere.hit (sphGet sph i) ray lo hi = some rec := by
  intro fuel
  induction fuel with
  | zero =>
    intro idx seg lo hi rec _ h
    rw [intersectNode] at h
    exact absurd h (by simp)
  | succ fuel ih =>
    intro idx seg lo hi rec hcov h
    rcases hbox : (nodeGet nodes idx).bbox.intersect ray lo hi with _ | _
    · rw [intersectNode_succ_nobox nodes sph ray fuel idx lo hi hbox] at h
      exact absurd h (by simp)
    · cases hcov with
      | leaf j i hj hl hsi =>
        rw [intersectNode_succ_leaf nodes sph ray fuel idx lo hi hbox hl] at h
        dsimp only at h
        rw [hsi] at h
        have ht : (Int.ofNat i).toNat = i := rfl
        rw [ht] at h
        exact ⟨i, List.mem_singleton_self i, h⟩
      | node j l r segL segR hj hl hle hri hjl hjr hcL hcR =>
        rw [intersectNode_succ_node nodes sph ray fuel idx lo hi hbox hl hle hri] at h
        dsimp only at h
        rcases hR : (intersectNode nodes sph ray fuel r lo
            (match (intersectNode nodes sph ray fuel l lo hi).1 with
             | some r0 => r0.t
             | none => hi)).1 with _ | rr
        · rw [hR] at h
          dsimp only at h
          obtain ⟨i, hi, hhit⟩ := ih hcL h
          exact ⟨i, List.mem_append_left _ hi, hhit⟩
        · rw [hR] at h
          dsimp only at h
          rw [Option.some_inj] at h
          subst h
          -- the right call ran with a (weakly) smaller upper bound
          rcases hL : (intersectNode nodes sph ray fuel l lo hi).1 with _ | rl
          · rw [hL] at hR
            obtain ⟨i, hi, hhit⟩ := ih hcR hR
            exact ⟨i, List.mem_append_right _ hi, hhit⟩
          · rw [hL] at hR
            obtain ⟨i, hi, hhit⟩ := ih hcR hR
            obtain ⟨iL, hiL, hhitL⟩ := ih hcL hL
            have hbnd := hit_bounds hhitL
            exact ⟨i, List.mem_append_right _ hi, hit_mono hbnd.2 hhit⟩

theorem Covers_lt {α : Type} [LinearOrderedField α] {sph : List (Sphere α)}
    {nodes : List (BVHNode α)} {j : ℕ} {seg : List ℕ}
    (h : Covers sph nodes j seg) : j < nodes.length := by
  cases h with
  | leaf j i hj _ _ => exact hj
  | node j l r segL segR hj _ _ _ _ _ _ _ => exact hj

theorem sphGet_mem {sph : List (Sphere ℝ)} {i : ℕ} (h : i < sph.length) :
    sphGet sph i ∈ sph := by
  unfold sphGet
  rw [List.getD_eq_getElem sph defSphere h]
  exact List.getElem_mem h

/-- Completeness of traversal for strictly interior minimal hits: if some
index in the covered segment scores the minimal genuine hit `rec` and
`rec.t` lies strictly inside the window, the traversal returns a record
with the same `t`. -/
theorem intersectNode_complete {nodes : List (BVHNode ℝ)} {sph : List (Sphere ℝ)}
    {ray : Ray ℝ}
    (hwf : WFArena sph nodes)
    (hrad : ∀ s ∈ sph, 0 < s.radius)
    (hdx : ray.direction.x ≠ 0) (hdy : ray.direction.y ≠ 0)
    (hdz : ray.direction.z ≠ 0) :
    ∀ (fuel : ℕ) {idx : ℕ} {seg : List ℕ} {lo hi : ℝ} {rec : HitRecord ℝ},
      Covers sph nodes idx seg →
      nodes.length ≤ fuel + idx →
      (∃ i ∈ seg, Sphere.hit (sphGet sph i) ray lo hi = some rec) →
      (∀ i ∈ seg, ∀ r', Sphere.hit (sphGet sph i) ray lo hi = some r' →
        rec.t ≤ r'.t) →
      lo < rec.t → rec.t < hi →
      ∃ rec', (intersectNode nodes sph ray fuel idx lo hi).1 = some rec' ∧
        rec'.t = rec.t := by
  have ha : ray.direction.dot ray.direction ≠ 0 := (dot_self_pos hdx).ne'
  intro fuel
  induction fuel with
  | zero =>
    intro idx seg lo hi rec hcov hfu _ _ _ _
    exact absurd (Covers_lt hcov) (by omega)
  | succ fuel ih =>
    intro idx seg lo hi rec hcov hfu hex hmin hlo hhi
    cases hcov with
    | leaf j i hj hl hsi =>
      obtain ⟨i', hi', hhit⟩ := hex
      rw [List.mem_singleton] at hi'
      subst hi'
      obtain ⟨hleafInv, _⟩ := hwf idx hj
      obtain ⟨_, _, i0, hi0, hsi0, hbb⟩ := hleafInv hl
      have heq : Int.ofNat i' = (i0 : ℤ) := by rw [← hsi, hsi0]
      have hii : i' = i0 := Int.ofNat.inj heq
      subst hii
      have hin : i' < sph.length := List.mem_range.mp hi0
      have hr : 0 < (sphGet sph i').radius := hrad _ (sphGet_mem hin)
      obtain ⟨hons, hpt⟩ := hit_on_sphere ha hhit
      have hbox : AABB.intersect (nodeGet nodes idx).bbox ray lo hi = true := by
        rw [hbb]
        exact box_test_of_interior hpt hr hdx hdy hdz (boxContains_refl _)
          hons hlo hhi
      refine ⟨rec, ?_, rfl⟩
      rw [intersectNode_succ_leaf nodes sph ray fuel idx lo hi hbox hl]
      dsimp only
      rw [hsi]
      exact hhit
    | node j l r segL segR hj hl hle hri hjl hjr hcL hcR =>
      have hcov' : Covers sph nodes idx (segL ++ segR) :=
        Covers.node idx l r segL segR hj hl hle hri hjl hjr hcL hcR
      obtain ⟨iw, hiw, hhitw⟩ := hex
      have hinw : iw < sph.length := covers_indices hwf hcov' iw hiw
      have hrw : 0 < (sphGet sph iw).radius := hrad _ (sphGet_mem hinw)
      obtain ⟨honsw, hptw⟩ := hit_on_sphere ha hhitw
      have hbox : AABB.intersect (nodeGet nodes idx).bbox ray lo hi = true :=
        box_test_of_interior hptw hrw hdx hdy hdz
          (covers_box hwf hcov' iw hiw) honsw hlo hhi
      rw [intersectNode_succ_node nodes sph ray fuel idx lo hi hbox hl hle hri]
      dsimp only
      have hfuL : nodes.length ≤ fuel + l := by omega
      have hfuR : nodes.length ≤ fuel + r := by omega
      have hminL : ∀ i ∈ segL, ∀ r', Sphere.hit (sphGet sph i) ray lo hi = some r' →
          rec.t ≤ r'.t := fun i h => hmin i (List.mem_append_left _ h)
      have hminR : ∀ i ∈ segR, ∀ r', Sphere.hit (sphGet sph i) ray lo hi = some r' →
          rec.t ≤ r'.t := fun i h => hmin i (List.mem_append_right _ h)
      by_cases hLhit : ∃ i ∈ segL, ∃ rL : HitRecord ℝ,
          Sphere.hit (sphGet sph i) ray lo hi = some rL ∧ rL.t = rec.t
      · obtain ⟨iL, hiL, rL, hhitL, hteq⟩ := hLhit
        obtain ⟨recL', hresL, htL⟩ := ih hcL hfuL ⟨iL, hiL, hhitL⟩
          (by intro i h r' hh; rw [hteq]; exact hminL i h r' hh)
          (by rw [hteq]; exact hlo) (by rw [hteq]; exact hhi)
        rw [hresL]
        dsimp only
        have htLr : recL'.t = rec.t := htL.trans hteq
        rcases hresR : (intersectNode nodes sph ray fuel r lo recL'.t).1 with _ | rr
        · dsimp only
          exact ⟨recL', rfl, htLr⟩
        · dsimp only
          obtain ⟨iR, hiR, hhitR⟩ := intersectNode_sound fuel hcR hresR
          have hup : recL'.t ≤ hi := by rw [htLr]; exact le_of_lt hhi
          have h1 : rec.t ≤ rr.t :=
            hminR iR hiR rr (hit_mono hup hhitR)
          have h2 : rr.t ≤ recL'.t := (hit_bounds hhitR).2
          exact ⟨rr, rfl, le_antisymm (by rw [← htLr]; exact h2) h1⟩
      · have hiwR : iw ∈ segR := by
          rcases List.mem_append.mp hiw with h | h
          · exact absurd ⟨iw, h, rec, hhitw, rfl⟩ hLhit
          · exact h
        rcases hresL : (intersectNode nodes sph ray fuel l lo hi).1 with _ | rl
        · dsimp only
          obtain ⟨recR', hresR, htR⟩ := ih hcR hfuR ⟨iw, hiwR, hhitw⟩
            hminR hlo hhi
          rw [hresR]
          dsimp only
          exact ⟨recR', rfl, htR⟩
        · dsimp only
          obtain ⟨iL, hiL, hhitL⟩ := intersectNode_sound fuel hcL hresL
          have hlt : rec.t < rl.t :=
            lt_of_le_of_ne (hminL iL hiL rl hhitL)
              (fun he => hLhit ⟨iL, hiL, rl, hhitL, he.symm⟩)
          have hrl_hi : rl.t ≤ hi := (hit_bounds hhitL).2
          have hhitw' : Sphere.hit (sphGet sph iw) ray lo rl.t = some rec :=
            hit_anti hhitw (le_of_lt hlt) hrl_hi
          obtain ⟨recR', hresR, htR⟩ := ih hcR hfuR ⟨iw, hiwR, hhitw'⟩
            (by
              intro i h r' hh
              exact hminR i h r' (hit_mono hrl_hi hh))
            hlo hlt
          rw [hresR]
          dsimp only
          exact ⟨recR', rfl, htR⟩

/-- The arena built by the `BVH` constructor on a nonempty scene is
well-formed, nonempty, and its root covers a permutation of all sphere
indices. -/
theorem bvhBuild_spec {sph : List (Sphere ℝ)} (hne : sph ≠ []) :
    WFArena sph (bvhBuild sph) ∧ bvhBuild sph ≠ [] ∧
    ∃ seg' : List ℕ, seg'.Perm (List.range sph.length) ∧
      Covers sph (bvhBuild sph) 0 seg' := by
  have hn : 0 < sph.length := List.length_pos.mpr hne
  have hb : bvhBuild sph = (build sph (List.range sph.length) []).1 := by
    unfold bvhBuild
    rw [if_neg]
    rw [List.isEmpty_iff]
    exact hne
  obtain ⟨newNodes, e1, e2, e3, e4, e5, e6⟩ :=
    build_spec sph sph.length (List.range sph.length) []
      (by rw [List.length_range]) (by rw [← List.length_pos_iff_ne_nil, List.length_range]; exact hn)
  have hlen : (build sph (List.range sph.length) []).1.length = newNodes.length := by
    rw [e1]
    simp
  refine ⟨?_, ?_, ?_⟩
  · intro j hj
    rw [hb] at hj ⊢
    refine e5 j (by simp) ?_
    rw [hlen] at hj
    simpa using hj
  · rw [hb, ← List.length_pos_iff_ne_nil, hlen, e3, List.length_range]
    omega
  · obtain ⟨seg', hperm, hcov⟩ := e6
    exact ⟨seg', hperm, by rw [hb]; simpa using hcov⟩

set_option maxHeartbeats 800000 in
/-- C1 (corrected): for a nonempty scene of positive-radius spheres and a
ray with all three direction components nonzero, `BVH::intersect` and
`Scene::intersect_brute` agree on hit-vs-miss and on the nearest hit
parameter `t`, provided every brute-force hit parameter lies strictly
inside `(t_min, t_max)`.  (The unqualified claim is false: a hit exactly
on the window boundary can land on the boundary of an enclosing box, where
the slab test's `t_max <= t_min` comparison rejects the degenerate
narrowed interval — see the counterexample.) -/
theorem claim_C1_equivalence {sph : List (Sphere ℝ)} {ray : Ray ℝ}
    {t_min t_max : ℝ}
    (hne : sph ≠ [])
    (hrad : ∀ s ∈ sph, 0 < s.radius)
    (hdx : ray.direction.x ≠ 0) (hdy : ray.direction.y ≠ 0)
    (hdz : ray.direction.z ≠ 0)
    (hint : ∀ rec, intersectBrute sph ray t_min t_max = some rec →
      t_min < rec.t ∧ rec.t < t_max) :
    Option.map HitRecord.t (bvhIntersect (bvhBuild sph) sph ray t_min t_max).1 =
    Option.map HitRecord.t (intersectBrute sph ray t_min t_max) := by
  obtain ⟨hwf, hbne, seg', hperm, hcov⟩ := bvhBuild_spec hne
  have hbv : (bvhIntersect (bvhBuild sph) sph ray t_min t_max).1 =
      (intersectNode (bvhBuild sph) sph ray (bvhBuild sph).length 0
        t_min t_max).1 := by
    unfold bvhIntersect
    rw [if_neg]
    rw [List.isEmpty_iff]
    exact hbne
  rcases hbr : intersectBrute sph ray t_min t_max with _ | rec
  · rw [hbv]
    rcases h : (intersectNode (bvhBuild sph) sph ray (bvhBuild sph).length 0
        t_min t_max).1 with _ | rec2
    · rfl
    · exfalso
      obtain ⟨i, hi, hhit⟩ := intersectNode_sound (bvhBuild sph).length hcov h
      have hin : i < sph.length := covers_indices hwf hcov i hi
      obtain ⟨rec0, h0⟩ := intersectBrute_of_hit (sphGet_mem hin) hhit
      rw [hbr] at h0
      exact absurd h0 (by simp)
  · obtain ⟨hlo, hhi⟩ := hint rec hbr
    obtain ⟨hb_le, ⟨s0, hs0, hhit0⟩, hmin⟩ := intersectBrute_some hbr
    obtain ⟨i0, hi0lt, hi0eq⟩ := List.getElem_of_mem hs0
    have hsg : sphGet sph i0 = s0 := by
      unfold sphGet
      rw [List.getD_eq_getElem sph defSphere hi0lt]
      exact hi0eq
    have hmem : i0 ∈ seg' := hperm.mem_iff.mpr (List.mem_range.mpr hi0lt)
    have hex : ∃ i ∈ seg',
        Sphere.hit (sphGet sph i) ray t_min t_max = some rec :=
      ⟨i0, hmem, by rw [hsg]; exact hhit0⟩
    have hminseg : ∀ i ∈ seg', ∀ r',
        Sphere.hit (sphGet sph i) ray t_min t_max = some r' → rec.t ≤ r'.t := by
      intro i hi r' hh
      have hin : i < sph.length := covers_indices hwf hcov i hi
      exact hmin (sphGet sph i) (sphGet_mem hin) r' hh
    obtain ⟨rec', hres, ht⟩ :=
      intersectNode_complete hwf hrad hdx hdy hdz (bvhBuild sph).length hcov
        (by omega) hex hminseg hlo hhi
    rw [hbv, hres]
    simp only [Option.map_some']
    rw [ht]

/-- A unit sphere at the origin. -/
noncomputable def c1xSphere : Sphere ℝ := ⟨⟨0, 0, 0⟩, 1, Material.diffuse ⟨1, 1, 1⟩⟩

/-- A ray that grazes the sphere's bounding box exactly at `t = t_max`. -/
noncomputable def c1xRay : Ray ℝ := ⟨⟨-2, 1, 1⟩, ⟨1, -1, -1⟩⟩

/-- The hit record the brute-force intersector produces for `c1xRay`. -/
noncomputable def c1xRec : HitRecord ℝ :=
  ⟨⟨-1, 0, 0⟩, ⟨-1, 0, 0⟩, 1, true, Material.diffuse ⟨1, 1, 1⟩⟩

theorem c1x_build : bvhBuild [c1xSphere] =
    [⟨⟨⟨-1, -1, -1⟩, ⟨1, 1, 1⟩⟩, -1, -1, 0, true⟩] := by
  unfold bvhBuild
  rw [if_neg (by simp)]
  rw [show ([c1xSphere] : List (Sphere ℝ)).length = 1 from rfl,
    show List.range 1 = [0] by simp [List.range_succ]]
  rw [build_one]
  norm_num [sphGet, Sphere.boundingBox, c1xSphere, Vec3.sub, Vec3.add]

theorem c1x_box :
    (nodeGet ([⟨⟨⟨-1, -1, -1⟩, ⟨1, 1, 1⟩⟩, -1, -1, 0, true⟩] : List (BVHNode ℝ))
      0).bbox.intersect c1xRay (1/1000) 1 = false := by
  show AABB.intersect ⟨⟨-1, -1, -1⟩, ⟨1, 1, 1⟩⟩ c1xRay (1/1000) 1 = false
  norm_num [AABB.intersect, AABB.slabAxis, AABB.slabNarrow, Vec3.axisGet,
    c1xRay, min_def, max_def]

theorem c1x_bvh_none :
    (bvhIntersect (bvhBuild [c1xSphere]) [c1xSphere] c1xRay (1/1000) 1).1 =
      none := by
  rw [c1x_build]
  unfold bvhIntersect
  rw [if_neg (by simp)]
  rw [show ([⟨⟨⟨-1, -1, -1⟩, ⟨1, 1, 1⟩⟩, -1, -1, 0, true⟩] :
      List (BVHNode ℝ)).length = 0 + 1 from rfl]
  rw [intersectNode_succ_nobox _ _ _ 0 0 _ _ c1x_box]

theorem c1x_hit : Sphere.hit c1xSphere c1xRay (1/1000) 1 = some c1xRec := by
  unfold Sphere.hit c1xSphere c1xRay c1xRec
  norm_num [Vec3.dot, Vec3.sub, Vec3.sdiv, Vec3.neg, Ray.at, Vec3.add,
    Vec3.smul, Real.sqrt_one]

theorem c1x_brute :
    intersectBrute [c1xSphere] c1xRay (1/1000) 1 = some c1xRec := by
  unfold intersectBrute
  rw [bruteLoop, c1x_hit]
  rfl

/-- A ray hitting `c1xSphere` strictly inside the `[0, 1]` window, at
`t = 2/3`. -/
noncomputable def cwRay : Ray ℝ := ⟨⟨-1, -2, -2⟩, ⟨1, 2, 2⟩⟩

/-- The hit record the brute-force intersector produces for `cwRay`. -/
noncomputable def cwRec : HitRecord ℝ :=
  ⟨⟨-1/3, -2/3, -2/3⟩, ⟨-1/3, -2/3, -2/3⟩, 2/3, true,
   Material.diffuse ⟨1, 1, 1⟩⟩

theorem cw_hit : Sphere.hit c1xSphere cwRay 0 1 = some cwRec := by
  have h9 : Real.sqrt 9 = 3 := by
    rw [show (9 : ℝ) = 3 ^ 2 by norm_num]
    exact Real.sqrt_sq (by norm_num)
  unfold Sphere.hit c1xSphere cwRay cwRec
  norm_num [Vec3.dot, Vec3.sub, Vec3.sdiv, Vec3.neg, Ray.at, Vec3.add,
    Vec3.smul, h9]

theorem cw_brute : intersectBrute [c1xSphere] cwRay 0 1 = some cwRec := by
  unfold intersectBrute
  rw [bruteLoop, cw_hit]
  rfl

/-- C1 as stated is false: for the unit sphere at the origin and the ray
from `(-2,1,1)` along `(1,-1,-1)` on the window `[1/1000, 1]`, the
brute-force baseline reports a hit at `t = 1` (exactly on the window
boundary, touching the bounding box), while `BVH::intersect` reports a
miss — the slab test narrows the x-axis interval to `[1, 1]` and its
`t_max <= t_min` early exit rejects it. -/
theorem claim_C1_counterexample :
    Option.map HitRecord.t (intersectBrute [c1xSphere] c1xRay (1/1000) 1) =
      some 1 ∧
    (bvhIntersect (bvhBuild [c1xSphere]) [c1xSphere] c1xRay (1/1000) 1).1 =
      none := by
  constructor
  · rw [c1x_brute]
    rfl
  · exact c1x_bvh_none

/-- C1 witness: the corrected equivalence applied to the unit sphere at
the origin and a ray hitting it at `t = 2/3`, strictly inside `[0, 1]`. -/
theorem claim_C1_equivalence_witness :
    ([c1xSphere] : List (Sphere ℝ)) ≠ [] ∧
    (∀ s ∈ ([c1xSphere] : List (Sphere ℝ)), 0 < s.radius) ∧
    cwRay.direction.x ≠ 0 ∧ cwRay.direction.y ≠ 0 ∧ cwRay.direction.z ≠ 0 ∧
    Option.map HitRecord.t
        (bvhIntersect (bvhBuild [c1xSphere]) [c1xSphere] cwRay 0 1).1 =
      Option.map HitRecord.t (intersectBrute [c1xSphere] cwRay 0 1) :=
  ⟨by simp,
   by
     intro s hs
     rw [List.mem_singleton] at hs
     subst hs
     norm_num [c1xSphere],
   by norm_num [cwRay],
   by norm_num [cwRay],
   by norm_num [cwRay],
   claim_C1_equivalence (by simp)
     (by
       intro s hs
       rw [List.mem_singleton] at hs
       subst hs
       norm_num [c1xSphere])
     (by norm_num [cwRay]) (by norm_num [cwRay]) (by norm_num [cwRay])
     (by
       intro rec h
       rw [cw_brute] at h
       rw [Option.some_inj] at h
       subst h
       norm_num [cwRec])⟩

end RayTracer
